import Mathlib

/-!
Verification of the macaroon library (`macaroon.rs`, `serialization.rs`,
`verifier.rs`) against its natural-language specification.

Modelling conventions:
* Rust `Vec<u8>` is `Bytes := List Nat` (each entry a byte value).
* Rust `String` is `RStr := List Nat`, the list of Unicode scalar values of
  its characters; `utf8Encode` maps it to the byte list that Rust's
  `String::as_bytes` exposes, and `utf8Decode` models `String::from_utf8`.
* Fallible Rust functions return `RustRes`, which distinguishes a normal
  `ok`, a returned error `err`, and a Rust panic `panicked` (out-of-bounds
  slice or index).
* The HMAC-SHA256, secretbox seal and secretbox open primitives are consumed
  by the library as opaque functions; they are modelled by a `CryptoPrim`
  record of abstract functions, and concrete executable instances are used
  for witnesses and counterexamples.
-/

/-- Byte strings (`Vec<u8>`), each element intended `< 256`. -/
abbrev Bytes : Type := List Nat

/-- Rust `String`, modelled as the list of Unicode scalar values of its
characters. -/
abbrev RStr : Type := List Nat

/-- Turn a Lean string literal into the `RStr` model of a Rust string. -/
def rstr (s : String) : RStr := s.toList.map Char.toNat

/-- The error sum of the library (`MacaroonError` in `error.rs`, which is
referenced but not part of the three sources; the variant set is the one the
three source files and the spec's §7 use). `noFuel` is a modelling device for
the verifier's recursion, proved unreachable under the canonical fuel. -/
inductive MacErr : Type where
  | badMacaroon : String → MacErr
  | keyError : String → MacErr
  | deserializationError : String → MacErr
  | unknownSerialization : MacErr
  | decryptionError : MacErr
  | utf8Error : MacErr
  | parseIntError : MacErr
  | base64Error : MacErr
  | noFuel : MacErr
deriving DecidableEq, Repr

/-- Result of running a piece of Rust code: a value, a returned error, or a
panic (used where the source indexes/slices without a bounds check). -/
inductive RustRes (α : Type) : Type where
  | panicked : RustRes α
  | err : MacErr → RustRes α
  | ok : α → RustRes α
deriving DecidableEq, Repr

/-- Sequencing of fallible Rust computations (`?` / `try!`). -/
def RustRes.bind {α β : Type} : RustRes α → (α → RustRes β) → RustRes β
  | .panicked, _ => .panicked
  | .err e, _ => .err e
  | .ok a, f => f a

/-- Map over the value of a `RustRes`. -/
def RustRes.map {α β : Type} (f : α → β) : RustRes α → RustRes β
  | .panicked => .panicked
  | .err e => .err e
  | .ok a => .ok (f a)

/-- The opaque cryptographic primitives (spec §4.1): `hmacFn key msg` is
HMAC-SHA256, `sealFn key nonce msg` is secretbox sealing (ciphertext only,
nonce not included), `openFn key blob` is the spec's `open` on a sealed blob
(returns `none` on authentication failure). -/
structure CryptoPrim : Type where
  hmacFn : Bytes → Bytes → Bytes
  sealFn : Bytes → Bytes → Bytes → Bytes
  openFn : Bytes → Bytes → Option Bytes

/-- The fixed key-generator constant: ASCII `"macaroons-key-generator"`
followed by nine NUL bytes (32 bytes in total). -/
def keyGenerator : Bytes := rstr "macaroons-key-generator" ++ List.replicate 9 0

/-- 32 zero bytes. -/
def zeros32 : Bytes := List.replicate 32 0

/-- A caveat as defined in `macaroon.rs` (the defining module): the
`verifier_id` field is `Option<Vec<u8>>` there. (`serialization.rs` of this
snapshot handles the same field with string-typed code; where it does, the
embedding applies the UTF-8 validation that code performs and stores the
resulting bytes.) -/
structure Caveat : Type where
  id : RStr
  verifier_id : Option Bytes
  location : Option RStr
deriving DecidableEq, Repr

/-- The macaroon record of `macaroon.rs`. -/
structure Macaroon : Type where
  location : Option RStr
  identifier : RStr
  signature : Bytes
  caveats : List Caveat
deriving DecidableEq, Repr

/-- `Default::default()` for `Caveat`. -/
def Caveat.default : Caveat := ⟨[], none, none⟩

/-- `Default::default()` for `Macaroon`. -/
def Macaroon.default : Macaroon := ⟨none, [], [], []⟩

/-- `Caveat::validate`: a caveat must have a non-empty id. -/
def Caveat.validate (c : Caveat) : RustRes Caveat :=
  if c.id.isEmpty then .err (.badMacaroon "Caveat with no identifier") else .ok c

/-- `Caveat::new`: build and validate. -/
def Caveat.new (id : RStr) (verifier_id : Option Bytes) (location : Option RStr) :
    RustRes Caveat :=
  Caveat.validate ⟨id, verifier_id, location⟩

/-- `hmac_vec` from `macaroon.rs`: reject keys that are not 32 bytes long,
then apply the HMAC primitive. -/
def hmac_vec (cp : CryptoPrim) (key : Bytes) (text : Bytes) : RustRes Bytes :=
  if key.length ≠ 32 then .err (.keyError "Wrong key length")
  else .ok (cp.hmacFn key text)

/-- `hmac2` from `macaroon.rs`:
`HMAC(key, HMAC(key, text1) ++ HMAC(key, text2))`. -/
def hmac2 (cp : CryptoPrim) (key : Bytes) (text1 text2 : Bytes) : RustRes Bytes :=
  (hmac_vec cp key text1).bind fun tmp1 =>
    (hmac_vec cp key text2).bind fun tmp2 =>
      hmac_vec cp key (tmp1 ++ tmp2)

/-- `Macaroon::generate_derived_key`: HMAC of the user key under the fixed
generator constant. -/
def generate_derived_key (cp : CryptoPrim) (key : Bytes) : RustRes Bytes :=
  hmac_vec cp keyGenerator key

/-- `Macaroon::validate`: non-empty identifier and non-empty signature.
(The source checks only non-emptiness of the signature, not its length.) -/
def Macaroon.validate (m : Macaroon) : RustRes Macaroon :=
  if m.identifier.isEmpty then .err (.badMacaroon "No macaroon identifier")
  else if m.signature.isEmpty then .err (.badMacaroon "No macaroon signature")
  else .ok m

/-- UTF-8 encoding of one Unicode scalar value, as `String::as_bytes`
exposes it (arithmetic form of the usual shift-and-mask encoder). -/
def utf8EncodeChar (c : Nat) : Bytes :=
  if c < 0x80 then [c]
  else if c < 0x800 then [0xC0 + c / 64, 0x80 + c % 64]
  else if c < 0x10000 then [0xE0 + c / 4096, 0x80 + c / 64 % 64, 0x80 + c % 64]
  else [0xF0 + c / 262144, 0x80 + c / 4096 % 64, 0x80 + c / 64 % 64, 0x80 + c % 64]

/-- UTF-8 encoding of a Rust string (`String::as_bytes` / `str::as_bytes`). -/
def utf8Encode (s : RStr) : Bytes := (s.map utf8EncodeChar).flatten

/-- Whether `b` is a UTF-8 continuation byte. -/
def utf8Cont (b : Nat) : Bool := 0x80 ≤ b && b < 0xC0

/-- Strict UTF-8 decoding (`String::from_utf8`): rejects continuation-byte
errors, overlong forms, surrogates and out-of-range scalars, mirroring
Rust's validation. -/
def utf8Decode : Bytes → Option RStr
  | [] => some []
  | b :: rest =>
    if b < 0x80 then (utf8Decode rest).map (b :: ·)
    else if b < 0xC2 then none
    else if b < 0xE0 then
      match rest with
      | b1 :: r =>
        if utf8Cont b1 then (utf8Decode r).map (((b - 0xC0) * 64 + (b1 - 0x80)) :: ·)
        else none
      | [] => none
    else if b < 0xF0 then
      match rest with
      | b1 :: b2 :: r =>
        if utf8Cont b1 && utf8Cont b2 then
          let c := (b - 0xE0) * 4096 + (b1 - 0x80) * 64 + (b2 - 0x80)
          if 0x800 ≤ c && (c < 0xD800 || 0xDFFF < c) then (utf8Decode r).map (c :: ·)
          else none
        else none
      | _ => none
    else if b < 0xF5 then
      match rest with
      | b1 :: b2 :: b3 :: r =>
        if utf8Cont b1 && utf8Cont b2 && utf8Cont b3 then
          let c := (b - 0xF0) * 262144 + (b1 - 0x80) * 4096 + (b2 - 0x80) * 64 + (b3 - 0x80)
          if 0x10000 ≤ c && c < 0x110000 then (utf8Decode r).map (c :: ·)
          else none
        else none
      | _ => none
    else none

/-- A valid Unicode scalar value: in range and not a surrogate. Every `char`
of a Rust `String` satisfies this. -/
def ValidScalar (c : Nat) : Prop := c < 0x110000 ∧ (c < 0xD800 ∨ 0xDFFF < c)

instance : DecidablePred ValidScalar := fun c => by
  unfold ValidScalar; infer_instance

/-- A Rust string model is valid when all its scalars are. -/
def ValidStr (s : RStr) : Prop := ∀ c ∈ s, ValidScalar c

theorem utf8Encode_nil : utf8Encode [] = [] := rfl

theorem utf8Encode_cons (c : Nat) (s : RStr) :
    utf8Encode (c :: s) = utf8EncodeChar c ++ utf8Encode s := by
  simp [utf8Encode]

/-- One-step unfolding of `utf8Decode` on a cons cell, independent of the
shape of the tail. -/
theorem utf8Decode_cons (b : Nat) (rest : Bytes) :
    utf8Decode (b :: rest) =
      if b < 0x80 then (utf8Decode rest).map (b :: ·)
      else if b < 0xC2 then none
      else if b < 0xE0 then
        match rest with
        | b1 :: r =>
          if utf8Cont b1 then (utf8Decode r).map (((b - 0xC0) * 64 + (b1 - 0x80)) :: ·)
          else none
        | [] => none
      else if b < 0xF0 then
        match rest with
        | b1 :: b2 :: r =>
          if utf8Cont b1 && utf8Cont b2 then
            let c := (b - 0xE0) * 4096 + (b1 - 0x80) * 64 + (b2 - 0x80)
            if 0x800 ≤ c && (c < 0xD800 || 0xDFFF < c) then (utf8Decode r).map (c :: ·)
            else none
          else none
        | _ => none
      else if b < 0xF5 then
        match rest with
        | b1 :: b2 :: b3 :: r =>
          if utf8Cont b1 && utf8Cont b2 && utf8Cont b3 then
            let c := (b - 0xF0) * 262144 + (b1 - 0x80) * 4096 + (b2 - 0x80) * 64 + (b3 - 0x80)
            if 0x10000 ≤ c && c < 0x110000 then (utf8Decode r).map (c :: ·)
            else none
          else none
        | _ => none
      else none := by
  rcases rest with _ | ⟨b1, _ | ⟨b2, _ | ⟨b3, r⟩⟩⟩ <;> rfl

/-- Decoding a validly encoded scalar from the front of a byte stream peels
off exactly that scalar. -/
theorem utf8Decode_encodeChar (c : Nat) (h1 : c < 0x110000)
    (h2 : c < 0xD800 ∨ 0xDFFF < c) (rest : Bytes) :
    utf8Decode (utf8EncodeChar c ++ rest) = (utf8Decode rest).map (c :: ·) := by
  rcases Nat.lt_or_ge c 0x80 with hc | hc1
  · rw [show utf8EncodeChar c = [c] from by rw [utf8EncodeChar, if_pos hc]]
    rw [List.cons_append, List.nil_append, utf8Decode_cons, if_pos hc]
  rcases Nat.lt_or_ge c 0x800 with hc2 | hc2
  · rw [show utf8EncodeChar c = [0xC0 + c / 64, 0x80 + c % 64] from by
      rw [utf8EncodeChar, if_neg (by omega), if_pos hc2]]
    simp only [List.cons_append, List.nil_append]
    rw [utf8Decode_cons]
    rw [if_neg (by omega), if_neg (by omega), if_pos (by omega)]
    simp only []
    rw [if_pos (show utf8Cont (0x80 + c % 64) = true by
      simp only [utf8Cont, Bool.and_eq_true, decide_eq_true_eq]; omega)]
    rw [show (0xC0 + c / 64 - 0xC0) * 64 + (0x80 + c % 64 - 0x80) = c from by omega]
  rcases Nat.lt_or_ge c 0x10000 with hc3 | hc3
  · rw [show utf8EncodeChar c = [0xE0 + c / 4096, 0x80 + c / 64 % 64, 0x80 + c % 64] from by
      rw [utf8EncodeChar, if_neg (by omega), if_neg (by omega), if_pos hc3]]
    simp only [List.cons_append, List.nil_append]
    rw [utf8Decode_cons]
    rw [if_neg (by omega), if_neg (by omega), if_neg (by omega), if_pos (by omega)]
    simp only []
    rw [if_pos (show (utf8Cont (0x80 + c / 64 % 64) && utf8Cont (0x80 + c % 64)) = true by
      simp only [utf8Cont, Bool.and_eq_true, decide_eq_true_eq]; omega)]
    rw [show (0xE0 + c / 4096 - 0xE0) * 4096 + (0x80 + c / 64 % 64 - 0x80) * 64 +
      (0x80 + c % 64 - 0x80) = c from by omega]
    rw [if_pos (by simp only [Bool.and_eq_true, Bool.or_eq_true, decide_eq_true_eq]; omega)]
  · rw [show utf8EncodeChar c = [0xF0 + c / 262144, 0x80 + c / 4096 % 64, 0x80 + c / 64 % 64,
        0x80 + c % 64] from by
      rw [utf8EncodeChar, if_neg (by omega), if_neg (by omega), if_neg (by omega)]]
    simp only [List.cons_append, List.nil_append]
    rw [utf8Decode_cons]
    rw [if_neg (by omega), if_neg (by omega), if_neg (by omega), if_neg (by omega),
      if_pos (by omega)]
    simp only []
    rw [if_pos (show (utf8Cont (0x80 + c / 4096 % 64) && utf8Cont (0x80 + c / 64 % 64) &&
        utf8Cont (0x80 + c % 64)) = true by
      simp only [utf8Cont, Bool.and_eq_true, decide_eq_true_eq]; omega)]
    rw [show (0xF0 + c / 262144 - 0xF0) * 262144 + (0x80 + c / 4096 % 64 - 0x80) * 4096 +
      (0x80 + c / 64 % 64 - 0x80) * 64 + (0x80 + c % 64 - 0x80) = c from by omega]
    rw [if_pos (by simp only [Bool.and_eq_true, decide_eq_true_eq]; omega)]

/-- Decoding an encoded valid string followed by any tail decodes the string
and continues with the tail. -/
theorem utf8Decode_encode_append (s : RStr) (h : ValidStr s) (rest : Bytes) :
    utf8Decode (utf8Encode s ++ rest) = (utf8Decode rest).map (s ++ ·) := by
  induction s with
  | nil =>
    simp only [utf8Encode_nil, List.nil_append]
    cases utf8Decode rest <;> simp
  | cons c cs ih =>
    have hc : ValidScalar c := h c (List.mem_cons_self c cs)
    have hcs : ValidStr cs := fun x hx => h x (List.mem_cons_of_mem c hx)
    rw [utf8Encode_cons, List.append_assoc, utf8Decode_encodeChar c hc.1 hc.2, ih hcs]
    cases utf8Decode rest <;> simp

/-- Round trip of the string model through UTF-8. -/
theorem utf8Decode_utf8Encode (s : RStr) (h : ValidStr s) :
    utf8Decode (utf8Encode s) = some s := by
  have h0 := utf8Decode_encode_append s h []
  rw [List.append_nil] at h0
  rw [h0, show (utf8Decode [] : Option RStr) = some [] from rfl]
  simp

/-- The Unicode `White_Space` property, which is what Rust's
`char::is_whitespace` (used by `str::trim`) tests. -/
def isRustWs (c : Nat) : Bool :=
  c = 9 || c = 10 || c = 11 || c = 12 || c = 13 || c = 32 || c = 0x85 || c = 0xA0 ||
  c = 0x1680 || (0x2000 ≤ c && c ≤ 0x200A) || c = 0x2028 || c = 0x2029 || c = 0x202F ||
  c = 0x205F || c = 0x3000

/-- Drop trailing whitespace characters (the tail half of `str::trim`). -/
def rustTrimEnd (s : RStr) : RStr := (s.reverse.dropWhile isRustWs).reverse

/-- Rust's `str::trim`: drop leading and trailing whitespace characters. -/
def rustTrim (s : RStr) : RStr := rustTrimEnd (s.dropWhile isRustWs)

/-- A string is trim-stable exactly when trimming does not change it. -/
def TrimStable (s : RStr) : Prop := rustTrim s = s

instance : DecidablePred TrimStable := fun s => by
  unfold TrimStable; infer_instance

theorem rustTrimEnd_length_le (s : RStr) : (rustTrimEnd s).length ≤ s.length := by
  simpa [rustTrimEnd] using (List.dropWhile_suffix (l := s.reverse) isRustWs).length_le

/-- A trim-stable string keeps no leading whitespace to drop. -/
theorem TrimStable.dropWhile_eq (s : RStr) (h : TrimStable s) :
    s.dropWhile isRustWs = s := by
  have hsuffix := List.dropWhile_suffix (l := s) isRustWs
  apply hsuffix.eq_of_length
  have h1 : (rustTrim s).length = s.length := by rw [h]
  have h2 : (rustTrim s).length ≤ (s.dropWhile isRustWs).length :=
    rustTrimEnd_length_le _
  have h3 := hsuffix.length_le
  omega

/-- A trim-stable string keeps no trailing whitespace to drop. -/
theorem TrimStable.trimEnd_eq (s : RStr) (h : TrimStable s) : rustTrimEnd s = s := by
  have h0 : rustTrim s = s := h
  rw [rustTrim, TrimStable.dropWhile_eq s h] at h0
  exact h0

/-- Trimming a trim-stable string with a single newline appended recovers the
string: this is what `deserialize_v1` does to each packet value. -/
theorem rustTrim_append_newline (s : RStr) (h : TrimStable s) :
    rustTrim (s ++ [10]) = s := by
  cases s with
  | nil => rfl
  | cons a t =>
    have hdrop : (a :: t).dropWhile isRustWs = a :: t := TrimStable.dropWhile_eq _ h
    have hnw : isRustWs a = false := by
      rw [List.dropWhile_cons] at hdrop
      by_cases hp : isRustWs a = true
      · rw [if_pos hp] at hdrop
        have := (List.dropWhile_suffix (l := t) isRustWs).length_le
        have h2 : (t.dropWhile isRustWs).length = t.length + 1 := by rw [hdrop]; simp
        omega
      · simpa using hp
    have hend : rustTrimEnd (a :: t) = a :: t := TrimStable.trimEnd_eq _ h
    have hrevdrop : (a :: t).reverse.dropWhile isRustWs = (a :: t).reverse := by
      have := congrArg List.reverse hend
      simpa [rustTrimEnd] using this
    have hd2 : List.dropWhile isRustWs (a :: t ++ [10]) = a :: t ++ [10] := by
      rw [List.cons_append, List.dropWhile_cons, if_neg (by simp [hnw])]
    have hrev2 : (a :: t ++ [10]).reverse = 10 :: (a :: t).reverse := by simp
    rw [rustTrim, hd2, rustTrimEnd, hrev2]
    rw [List.dropWhile_cons, if_pos (show isRustWs 10 = true from by decide)]
    rw [hrevdrop]
    simp

/-- Standard-alphabet base64 digit (model of `rustc-serialize`'s `to_base64`
character table, `STANDARD` configuration). -/
def b64EncodeChar (v : Nat) : Nat :=
  if v < 26 then 65 + v
  else if v < 52 then 97 + (v - 26)
  else if v < 62 then 48 + (v - 52)
  else if v = 62 then 43
  else 47

/-- `to_base64(STANDARD)` of `rustc-serialize`: standard alphabet, `=`
padding, no line wrapping. -/
def base64Encode : Bytes → Bytes
  | [] => []
  | [a] => [b64EncodeChar (a / 4), b64EncodeChar (a % 4 * 16), 61, 61]
  | [a, b] => [b64EncodeChar (a / 4), b64EncodeChar (a % 4 * 16 + b / 16),
      b64EncodeChar (b % 16 * 4), 61]
  | a :: b :: c :: rest =>
    b64EncodeChar (a / 4) :: b64EncodeChar (a % 4 * 16 + b / 16) ::
    b64EncodeChar (b % 16 * 4 + c / 64) :: b64EncodeChar (c % 64) :: base64Encode rest

/-- Base64 digit value, accepting both the standard and the URL-safe
alphabet, as `from_base64` does. -/
def b64DecodeChar (c : Nat) : Option Nat :=
  if 65 ≤ c ∧ c ≤ 90 then some (c - 65)
  else if 97 ≤ c ∧ c ≤ 122 then some (c - 97 + 26)
  else if 48 ≤ c ∧ c ≤ 57 then some (c - 48 + 52)
  else if c = 43 ∨ c = 45 then some 62
  else if c = 47 ∨ c = 95 then some 63
  else none

/-- Decode groups of base64 digits after newline and padding removal: every
full group of four digits yields three bytes, a final group of two or three
digits yields one or two bytes, and a dangling single digit is an error. -/
def b64DecodeQuads : Bytes → RustRes Bytes
  | [] => .ok []
  | [_] => .err .base64Error
  | [a, b] =>
    match b64DecodeChar a, b64DecodeChar b with
    | some v1, some v2 => .ok [v1 * 4 + v2 / 16]
    | _, _ => .err .base64Error
  | [a, b, c] =>
    match b64DecodeChar a, b64DecodeChar b, b64DecodeChar c with
    | some v1, some v2, some v3 => .ok [v1 * 4 + v2 / 16, v2 % 16 * 16 + v3 / 4]
    | _, _, _ => .err .base64Error
  | a :: b :: c :: d :: rest =>
    match b64DecodeChar a, b64DecodeChar b, b64DecodeChar c, b64DecodeChar d with
    | some v1, some v2, some v3, some v4 =>
      (b64DecodeQuads rest).map
        (fun tail => (v1 * 4 + v2 / 16) :: (v2 % 16 * 16 + v3 / 4) :: (v3 % 4 * 64 + v4) :: tail)
    | _, _, _, _ => .err .base64Error

/-- Remove a trailing run of `=` characters. -/
def stripTrailingEq (l : Bytes) : Bytes := (l.reverse.dropWhile (fun c => c == 61)).reverse

/-- `from_base64` of `rustc-serialize`: skip CR and LF, strip the trailing
padding, reject interior padding, decode digit groups; both alphabets are
accepted. -/
def base64Decode (s : Bytes) : RustRes Bytes :=
  let noNl := s.filter (fun c => !(c == 10 || c == 13))
  let core := stripTrailingEq noNl
  if core.any (fun c => c == 61) then .err .base64Error
  else b64DecodeQuads core

theorem b64EncodeChar_ne (v : Nat) :
    b64EncodeChar v ≠ 61 ∧ b64EncodeChar v ≠ 10 ∧ b64EncodeChar v ≠ 13 := by
  unfold b64EncodeChar
  split_ifs <;> omega

theorem b64DecodeChar_encodeChar (v : Nat) (h : v < 64) :
    b64DecodeChar (b64EncodeChar v) = some v := by
  revert h
  revert v
  decide

/-- Stripping trailing padding keeps a list whose head is not `=`
non-empty. -/
theorem stripTrailingEq_ne_nil (x : Nat) (l : Bytes) (hx : x ≠ 61) :
    stripTrailingEq (x :: l) ≠ [] := by
  unfold stripTrailingEq
  rw [List.reverse_cons, List.dropWhile_append]
  split_ifs with h
  · simp only [List.dropWhile_cons, List.dropWhile_nil]
    rw [if_neg (by simpa using hx)]
    simp
  · simp

/-- Stripping trailing padding distributes over an append whose right part
strips to something non-empty. -/
theorem stripTrailingEq_append (u t : Bytes) (ht : stripTrailingEq t ≠ []) :
    stripTrailingEq (u ++ t) = u ++ stripTrailingEq t := by
  unfold stripTrailingEq at *
  rw [List.reverse_append, List.dropWhile_append]
  split_ifs with h
  · exfalso
    apply ht
    rw [List.isEmpty_iff] at h
    rw [h]
    rfl
  · simp

/-- A list ending in a non-`=` character is unchanged by padding removal. -/
theorem stripTrailingEq_snoc (u : Bytes) (x : Nat) (hx : x ≠ 61) :
    stripTrailingEq (u ++ [x]) = u ++ [x] := by
  unfold stripTrailingEq
  rw [List.reverse_append]
  rw [show ([x] : Bytes).reverse = [x] from rfl, List.singleton_append, List.dropWhile_cons]
  rw [if_neg (by simpa using hx)]
  simp

theorem strip_pad2 (x1 x2 : Nat) (h : x2 ≠ 61) : stripTrailingEq [x1, x2, 61, 61] = [x1, x2] := by
  unfold stripTrailingEq
  rw [show ([x1, x2, 61, 61] : Bytes).reverse = [61, 61, x2, x1] from by simp]
  rw [List.dropWhile_cons, if_pos (by simp), List.dropWhile_cons, if_pos (by simp),
    List.dropWhile_cons, if_neg (by simpa using h)]
  simp

theorem strip_pad1 (x1 x2 x3 : Nat) (h : x3 ≠ 61) :
    stripTrailingEq [x1, x2, x3, 61] = [x1, x2, x3] := by
  unfold stripTrailingEq
  rw [show ([x1, x2, x3, 61] : Bytes).reverse = [61, x3, x2, x1] from by simp]
  rw [List.dropWhile_cons, if_pos (by simp), List.dropWhile_cons, if_neg (by simpa using h)]
  simp

/-- The base64 serialization of a non-empty input starts with an alphabet
character, so padding removal keeps it non-empty. -/
theorem base64Encode_cons_head (d : Nat) (l : Bytes) :
    ∃ t, base64Encode (d :: l) = b64EncodeChar (d / 4) :: t := by
  cases l with
  | nil => exact ⟨_, rfl⟩
  | cons b t2 =>
    cases t2 with
    | nil => exact ⟨_, rfl⟩
    | cons c t3 => exact ⟨_, rfl⟩

theorem stripTrailingEq_base64Encode_ne_nil (d : Nat) (l : Bytes) :
    stripTrailingEq (base64Encode (d :: l)) ≠ [] := by
  obtain ⟨t, ht⟩ := base64Encode_cons_head d l
  rw [ht]
  exact stripTrailingEq_ne_nil _ _ (b64EncodeChar_ne _).1

/-- The padding-stripped base64 digits of the serialization, chunk by
chunk. -/
theorem base64Core_cons3 (a b c : Nat) (rest : Bytes) :
    stripTrailingEq (base64Encode (a :: b :: c :: rest)) =
      b64EncodeChar (a / 4) :: b64EncodeChar (a % 4 * 16 + b / 16) ::
      b64EncodeChar (b % 16 * 4 + c / 64) :: b64EncodeChar (c % 64) ::
      stripTrailingEq (base64Encode rest) := by
  cases rest with
  | nil =>
    rw [show base64Encode [a, b, c] = [b64EncodeChar (a / 4),
        b64EncodeChar (a % 4 * 16 + b / 16), b64EncodeChar (b % 16 * 4 + c / 64),
        b64EncodeChar (c % 64)] from rfl]
    rw [show ([b64EncodeChar (a / 4), b64EncodeChar (a % 4 * 16 + b / 16),
        b64EncodeChar (b % 16 * 4 + c / 64), b64EncodeChar (c % 64)] : Bytes) =
      [b64EncodeChar (a / 4), b64EncodeChar (a % 4 * 16 + b / 16),
        b64EncodeChar (b % 16 * 4 + c / 64)] ++ [b64EncodeChar (c % 64)] from rfl]
    rw [stripTrailingEq_snoc _ _ (b64EncodeChar_ne _).1]
    rfl
  | cons d rest' =>
    rw [show base64Encode (a :: b :: c :: d :: rest') = [b64EncodeChar (a / 4),
        b64EncodeChar (a % 4 * 16 + b / 16), b64EncodeChar (b % 16 * 4 + c / 64),
        b64EncodeChar (c % 64)] ++ base64Encode (d :: rest') from rfl]
    rw [stripTrailingEq_append _ _ (stripTrailingEq_base64Encode_ne_nil d rest')]
    rfl

theorem base64Core_nil : stripTrailingEq (base64Encode []) = [] := rfl

theorem base64Core_one (a : Nat) :
    stripTrailingEq (base64Encode [a]) =
      [b64EncodeChar (a / 4), b64EncodeChar (a % 4 * 16)] :=
  strip_pad2 _ _ (b64EncodeChar_ne _).1

theorem base64Core_two (a b : Nat) :
    stripTrailingEq (base64Encode [a, b]) =
      [b64EncodeChar (a / 4), b64EncodeChar (a % 4 * 16 + b / 16),
        b64EncodeChar (b % 16 * 4)] :=
  strip_pad1 _ _ _ (b64EncodeChar_ne _).1

/-- Every character the base64 serializer emits is an alphabet character or
padding. -/
theorem base64Encode_mem : ∀ (bs : Bytes) (x : Nat), x ∈ base64Encode bs →
    x = 61 ∨ ∃ v, x = b64EncodeChar v
  | [], x, hx => by simp [base64Encode] at hx
  | [a], x, hx => by
    simp only [base64Encode, List.mem_cons, List.not_mem_nil, or_false] at hx
    rcases hx with h | h | h | h <;> first | exact .inl h | exact .inr ⟨_, h⟩
  | [a, b], x, hx => by
    simp only [base64Encode, List.mem_cons, List.not_mem_nil, or_false] at hx
    rcases hx with h | h | h | h <;> first | exact .inl h | exact .inr ⟨_, h⟩
  | a :: b :: c :: rest, x, hx => by
    simp only [base64Encode, List.mem_cons] at hx
    rcases hx with h | h | h | h | h <;>
      first | exact .inr ⟨_, h⟩ | exact base64Encode_mem rest x h

/-- The newline filter of `from_base64` does not change serializer output. -/
theorem base64Encode_filter (bs : Bytes) :
    (base64Encode bs).filter (fun c => !(c == 10 || c == 13)) = base64Encode bs := by
  apply List.filter_eq_self.mpr
  intro x hx
  rcases base64Encode_mem bs x hx with h | ⟨v, h⟩
  · subst h; decide
  · subst h
    have h1 := (b64EncodeChar_ne v).2.1
    have h2 := (b64EncodeChar_ne v).2.2
    simp only [Bool.not_eq_true', Bool.or_eq_false_iff, beq_eq_false_iff_ne, ne_eq]
    exact ⟨h1, h2⟩

/-- The padding-stripped digits contain no padding character. -/
theorem base64Core_no_eq : ∀ (bs : Bytes),
    (stripTrailingEq (base64Encode bs)).any (fun c => c == 61) = false
  | [] => rfl
  | [a] => by
    rw [base64Core_one]
    simp only [List.any_cons, List.any_nil, Bool.or_eq_false_iff, beq_eq_false_iff_ne, ne_eq]
    exact ⟨(b64EncodeChar_ne _).1, (b64EncodeChar_ne _).1, trivial⟩
  | [a, b] => by
    rw [base64Core_two]
    simp only [List.any_cons, List.any_nil, Bool.or_eq_false_iff, beq_eq_false_iff_ne, ne_eq]
    exact ⟨(b64EncodeChar_ne _).1, (b64EncodeChar_ne _).1, (b64EncodeChar_ne _).1, trivial⟩
  | a :: b :: c :: rest => by
    rw [base64Core_cons3]
    simp only [List.any_cons, Bool.or_eq_false_iff, beq_eq_false_iff_ne, ne_eq]
    exact ⟨(b64EncodeChar_ne _).1, (b64EncodeChar_ne _).1, (b64EncodeChar_ne _).1,
      (b64EncodeChar_ne _).1, base64Core_no_eq rest⟩

theorem b64DecodeQuads_two (a b : Nat) :
    b64DecodeQuads [a, b] =
      match b64DecodeChar a, b64DecodeChar b with
      | some v1, some v2 => .ok [v1 * 4 + v2 / 16]
      | _, _ => .err .base64Error := rfl

theorem b64DecodeQuads_three (a b c : Nat) :
    b64DecodeQuads [a, b, c] =
      match b64DecodeChar a, b64DecodeChar b, b64DecodeChar c with
      | some v1, some v2, some v3 => .ok [v1 * 4 + v2 / 16, v2 % 16 * 16 + v3 / 4]
      | _, _, _ => .err .base64Error := rfl

theorem b64DecodeQuads_cons4 (a b c d : Nat) (rest : Bytes) (hr : rest ≠ []) :
    b64DecodeQuads (a :: b :: c :: d :: rest) =
      match b64DecodeChar a, b64DecodeChar b, b64DecodeChar c, b64DecodeChar d with
      | some v1, some v2, some v3, some v4 =>
        (b64DecodeQuads rest).map
          (fun tail => (v1 * 4 + v2 / 16) :: (v2 % 16 * 16 + v3 / 4) :: (v3 % 4 * 64 + v4) :: tail)
      | _, _, _, _ => .err .base64Error := by
  cases rest with
  | nil => exact absurd rfl hr
  | cons e t => rfl

theorem b64DecodeQuads_four (a b c d : Nat) :
    b64DecodeQuads [a, b, c, d] =
      match b64DecodeChar a, b64DecodeChar b, b64DecodeChar c, b64DecodeChar d with
      | some v1, some v2, some v3, some v4 =>
        (b64DecodeQuads []).map
          (fun tail => (v1 * 4 + v2 / 16) :: (v2 % 16 * 16 + v3 / 4) :: (v3 % 4 * 64 + v4) :: tail)
      | _, _, _, _ => .err .base64Error := rfl

/-- Decoding the padding-stripped digit stream of the serializer recovers the
input bytes. -/
theorem b64DecodeQuads_core : ∀ (bs : Bytes), (∀ x ∈ bs, x < 256) →
    b64DecodeQuads (stripTrailingEq (base64Encode bs)) = .ok bs
  | [], _ => rfl
  | [a], h => by
    have ha : a < 256 := h a (by simp)
    rw [base64Core_one, b64DecodeQuads_two,
      b64DecodeChar_encodeChar _ (by omega), b64DecodeChar_encodeChar _ (by omega)]
    simp only []
    rw [show a / 4 * 4 + a % 4 * 16 / 16 = a from by omega]
  | [a, b], h => by
    have ha : a < 256 := h a (by simp)
    have hb : b < 256 := h b (by simp)
    rw [base64Core_two, b64DecodeQuads_three,
      b64DecodeChar_encodeChar _ (by omega), b64DecodeChar_encodeChar _ (by omega),
      b64DecodeChar_encodeChar _ (by omega)]
    simp only []
    rw [show a / 4 * 4 + (a % 4 * 16 + b / 16) / 16 = a from by omega,
      show (a % 4 * 16 + b / 16) % 16 * 16 + b % 16 * 4 / 4 = b from by omega]
  | a :: b :: c :: rest, h => by
    have ha : a < 256 := h a (by simp)
    have hb : b < 256 := h b (by simp)
    have hc : c < 256 := h c (by simp)
    have hrest : ∀ x ∈ rest, x < 256 := fun x hx => h x (by simp [hx])
    rw [base64Core_cons3]
    cases rest with
    | nil =>
      rw [show stripTrailingEq (base64Encode []) = [] from rfl, b64DecodeQuads_four,
        b64DecodeChar_encodeChar _ (by omega), b64DecodeChar_encodeChar _ (by omega),
        b64DecodeChar_encodeChar _ (by omega), b64DecodeChar_encodeChar _ (by omega)]
      simp only []
      rw [show a / 4 * 4 + (a % 4 * 16 + b / 16) / 16 = a from by omega,
        show (a % 4 * 16 + b / 16) % 16 * 16 + (b % 16 * 4 + c / 64) / 4 = b from by omega,
        show (b % 16 * 4 + c / 64) % 4 * 64 + c % 64 = c from by omega]
      rfl
    | cons d rest' =>
      rw [b64DecodeQuads_cons4 _ _ _ _ _ (stripTrailingEq_base64Encode_ne_nil d rest'),
        b64DecodeChar_encodeChar _ (by omega), b64DecodeChar_encodeChar _ (by omega),
        b64DecodeChar_encodeChar _ (by omega), b64DecodeChar_encodeChar _ (by omega)]
      simp only []
      rw [b64DecodeQuads_core (d :: rest') hrest]
      rw [show a / 4 * 4 + (a % 4 * 16 + b / 16) / 16 = a from by omega,
        show (a % 4 * 16 + b / 16) % 16 * 16 + (b % 16 * 4 + c / 64) / 4 = b from by omega,
        show (b % 16 * 4 + c / 64) % 4 * 64 + c % 64 = c from by omega]
      rfl

/-- Round trip through the base64 layer: decoding what `to_base64(STANDARD)`
produced returns the original bytes. -/
theorem base64Decode_base64Encode (bs : Bytes) (h : ∀ x ∈ bs, x < 256) :
    base64Decode (base64Encode bs) = .ok bs := by
  have hdef : base64Decode (base64Encode bs) =
      (if (stripTrailingEq ((base64Encode bs).filter (fun c => !(c == 10 || c == 13)))).any
          (fun c => c == 61) then
        .err .base64Error
      else
        b64DecodeQuads
          (stripTrailingEq ((base64Encode bs).filter (fun c => !(c == 10 || c == 13))))) := rfl
  rw [hdef, base64Encode_filter, if_neg (by rw [base64Core_no_eq]; simp),
    b64DecodeQuads_core bs h]

/-- ASCII bytes decode to themselves. -/
theorem utf8Decode_ascii (l : Bytes) (h : ∀ x ∈ l, x < 128) : utf8Decode l = some l := by
  induction l with
  | nil => rfl
  | cons a t ih =>
    rw [utf8Decode_cons, if_pos (h a (by simp)), ih (fun x hx => h x (by simp [hx]))]
    rfl

/-- ASCII scalars encode to themselves. -/
theorem utf8Encode_ascii (l : RStr) (h : ∀ x ∈ l, x < 128) : utf8Encode l = l := by
  induction l with
  | nil => rfl
  | cons a t ih =>
    rw [utf8Encode_cons, ih (fun x hx => h x (by simp [hx]))]
    rw [show utf8EncodeChar a = [a] from by rw [utf8EncodeChar, if_pos (h a (by simp))]]
    rfl

/-- `to_hex_char` of `serialization.rs`: the ASCII character of one hex
nibble (`format!("{:1x}", v)`, always called on values `< 16`). -/
def to_hex_char (v : Nat) : Nat := if v < 10 then 48 + v else 87 + v

/-- `packet_header`: the four-nibble big-endian hex length header. -/
def packet_header (size : Nat) : Bytes :=
  [to_hex_char (size / 4096 % 16), to_hex_char (size / 256 % 16),
    to_hex_char (size / 16 % 16), to_hex_char (size % 16)]

/-- `serialize_as_packet`: header, tag, space, value, newline; the counted
size includes every byte of the packet. -/
def serialize_as_packet (tag : RStr) (value : Bytes) : Bytes :=
  let size := 4 + 2 + (utf8Encode tag).length + value.length
  packet_header size ++ utf8Encode tag ++ [32] ++ value ++ [10]

/-- The packet run of one caveat in V1 order: `cid`, then `vid` and `cl`
when present. -/
def v1CaveatPackets (c : Caveat) : Bytes :=
  serialize_as_packet (rstr "cid") (utf8Encode c.id) ++
  (match c.verifier_id with
   | some vid => serialize_as_packet (rstr "vid") vid
   | none => []) ++
  (match c.location with
   | some loc => serialize_as_packet (rstr "cl") (utf8Encode loc)
   | none => [])

/-- The full V1 packet stream of a macaroon. -/
def v1Packets (m : Macaroon) : Bytes :=
  (match m.location with
   | some loc => serialize_as_packet (rstr "location") (utf8Encode loc)
   | none => []) ++
  serialize_as_packet (rstr "identifier") (utf8Encode m.identifier) ++
  (m.caveats.map v1CaveatPackets).flatten ++
  serialize_as_packet (rstr "signature") m.signature

/-- `serialize_v1`: the packet stream, base64-encoded. -/
def serialize_v1 (m : Macaroon) : RustRes Bytes :=
  .ok (base64Encode (v1Packets m))

/-- A parsed V1 packet: UTF-8 key and raw value (the value retains the
trailing newline; readers trim it). -/
structure PacketV1 : Type where
  key : RStr
  value : Bytes
deriving DecidableEq, Repr

/-- One hex digit (`from_str_radix` base 16 accepts both cases). -/
def hexDigitVal (c : Nat) : Option Nat :=
  if 48 ≤ c ∧ c ≤ 57 then some (c - 48)
  else if 97 ≤ c ∧ c ≤ 102 then some (c - 97 + 10)
  else if 65 ≤ c ∧ c ≤ 70 then some (c - 65 + 10)
  else none

/-- `usize::from_str_radix(s, 16)` on the digit characters of `s`. -/
def hexParseStr (s : RStr) : Option Nat :=
  if s.isEmpty then none
  else s.foldl (fun acc c => acc.bind fun v => (hexDigitVal c).map fun d => v * 16 + d) (some 0)

/-- `deserialize_as_packets`, with explicit recursion fuel (the Rust
recursion strictly consumes at least five bytes per step, so
`data.length + 1` fuel is always enough; exhaustion yields the modelling
error `noFuel`). Out-of-range packet sizes panic exactly where the Rust
slices `&data[..4]` and `&data[4..size]` do. -/
def deserialize_as_packets : Nat → Bytes → List PacketV1 → RustRes (List PacketV1)
  | 0, _, _ => .err .noFuel
  | fuel + 1, data, packets =>
    if data.length = 0 then .ok packets
    else if data.length < 4 then .panicked
    else
      match utf8Decode (data.take 4) with
      | none => .err .utf8Error
      | some hex =>
        match hexParseStr hex with
        | none => .err .parseIntError
        | some size =>
          if size < 4 ∨ data.length < size then .panicked
          else
            let packet_data := (data.drop 4).take (size - 4)
            match packet_data.findIdx? (fun b => b == 32) with
            | none => .err (.deserializationError "Key/value error")
            | some index =>
              match utf8Decode (packet_data.take index) with
              | none => .err .utf8Error
              | some key =>
                deserialize_as_packets fuel (data.drop size)
                  (packets ++ [⟨key, (packet_data.drop index).drop 1⟩])

/-- The body of `deserialize_v1`'s packet loop: mutable `macaroon` and
pending `caveat` threaded explicitly. The `cid` arm reproduces the source
faithfully: a second `cid` packet flushes the pending caveat and drops its
own value. -/
def v1ProcessPackets : List PacketV1 → Macaroon → Caveat → RustRes Macaroon
  | [], m, _ => .ok m
  | p :: rest, m, cav =>
    if p.key = rstr "location" then
      match utf8Decode p.value with
      | none => .err .utf8Error
      | some vs => v1ProcessPackets rest { m with location := some (rustTrim vs) } cav
    else if p.key = rstr "identifier" then
      match utf8Decode p.value with
      | none => .err .utf8Error
      | some vs => v1ProcessPackets rest { m with identifier := rustTrim vs } cav
    else if p.key = rstr "signature" then
      let m' := if cav.id.isEmpty then m else { m with caveats := m.caveats ++ [cav] }
      if p.value.length < 32 then .panicked
      else v1ProcessPackets rest { m' with signature := p.value.take 32 } Caveat.default
    else if p.key = rstr "cid" then
      if cav.id.isEmpty then
        match utf8Decode p.value with
        | none => .err .utf8Error
        | some vs => v1ProcessPackets rest m { cav with id := rustTrim vs }
      else
        v1ProcessPackets rest { m with caveats := m.caveats ++ [cav] } Caveat.default
    else if p.key = rstr "vid" then
      match utf8Decode p.value with
      | none => .err .utf8Error
      | some vs =>
        v1ProcessPackets rest m { cav with verifier_id := some (utf8Encode (rustTrim vs)) }
    else if p.key = rstr "cl" then
      match utf8Decode p.value with
      | none => .err .utf8Error
      | some vs => v1ProcessPackets rest m { cav with location := some (rustTrim vs) }
    else .err (.deserializationError "Unknown key")

/-- `deserialize_v1`: UTF-8 check of the input, base64 decode, packet split,
packet loop. -/
def deserialize_v1 (base64 : Bytes) : RustRes Macaroon :=
  match utf8Decode base64 with
  | none => .err .utf8Error
  | some s =>
    (base64Decode (utf8Encode s)).bind fun data =>
      (deserialize_as_packets (data.length + 1) data []).bind fun pkts =>
        v1ProcessPackets pkts Macaroon.default Caveat.default

/-- `varint_size` body with recursion fuel (`size + 1` always suffices as the
value shrinks by a factor of 128 each step). `(my_size & 127) | 128` is
written as `my_size % 128 + 128` (equal for every value), and `>>= 7` as
division by 128. -/
def varintAux : Nat → Nat → Bytes
  | 0, _ => []
  | fuel + 1, size => if size < 128 then [size] else (size % 128 + 128) :: varintAux fuel (size / 128)

/-- `varint_size` of `serialization.rs`: little-endian base-128 with MSB
continuation. -/
def varint_size (size : Nat) : Bytes := varintAux (size + 1) size

/-- `serialize_field_v2`: tag byte, varint length, raw value. -/
def serialize_field_v2 (tag : Nat) (value : Bytes) : Bytes :=
  tag :: varint_size value.length ++ value

/-- The serialized form of one caveat in V2: optional location field,
identifier field, optional verifier-id field, EOS. -/
def v2CaveatBytes (c : Caveat) : Bytes :=
  (match c.location with
   | some loc => serialize_field_v2 1 (utf8Encode loc)
   | none => []) ++
  serialize_field_v2 2 (utf8Encode c.id) ++
  (match c.verifier_id with
   | some vid => serialize_field_v2 4 vid
   | none => []) ++ [0]

/-- `serialize_v2`: version byte, optional location, identifier, EOS, the
caveat section, EOS, signature. -/
def serialize_v2 (m : Macaroon) : RustRes Bytes :=
  .ok ([2] ++
    (match m.location with
     | some loc => serialize_field_v2 1 (utf8Encode loc)
     | none => []) ++
    serialize_field_v2 2 (utf8Encode m.identifier) ++ [0] ++
    (m.caveats.map v2CaveatBytes).flatten ++ [0] ++
    serialize_field_v2 6 m.signature)

/-- `V2Deserializer::get_byte` in consuming-list form. (When
`deserialize_v2` is handed an empty input the Rust underflows
`self.data.len() - 1` and indexes `data[0]`, a panic; the dispatcher never
passes it an empty input, and this model returns the buffer-overrun error in
that unreachable situation.) -/
def v2GetByte : Bytes → RustRes (Nat × Bytes)
  | [] => .err (.deserializationError "Buffer overrun")
  | b :: rest => .ok (b, rest)

/-- `V2Deserializer::get_field_size`: little-endian base-128 accumulation.
The source shifts the `u8` value itself (`(byte & 127) << shift` without a
widening cast), so the shifted byte is truncated modulo 256 and, in release
semantics, the shift amount is masked to the `u8` width; the model keeps
both artefacts. -/
def v2FieldSizeAux (shift size : Nat) : Bytes → RustRes (Nat × Bytes)
  | [] =>
    if shift ≤ 63 then .err (.deserializationError "Buffer overrun")
    else .err (.deserializationError "Error in field size")
  | b :: rest =>
    if shift ≤ 63 then
      if b &&& 128 ≠ 0 then
        v2FieldSizeAux (shift + 7) (size ||| ((b &&& 127) <<< (shift % 8)) % 256) rest
      else .ok (size ||| (b <<< (shift % 8)) % 256, rest)
    else .err (.deserializationError "Error in field size")

/-- `V2Deserializer::get_field_size` from the start of the remaining
input. -/
def v2GetFieldSize (data : Bytes) : RustRes (Nat × Bytes) := v2FieldSizeAux 0 0 data

/-- `V2Deserializer::get_field`: size then that many raw bytes. -/
def v2GetField (data : Bytes) : RustRes (Bytes × Bytes) :=
  (v2GetFieldSize data).bind fun sr =>
    if sr.2.length < sr.1 then .err (.deserializationError "Unexpected end of field")
    else .ok (sr.2.take sr.1, sr.2.drop sr.1)

/-- `V2Deserializer::get_eos`. -/
def v2GetEos (data : Bytes) : RustRes (Nat × Bytes) :=
  (v2GetByte data).bind fun br =>
    if br.1 = 0 then .ok br else .err (.deserializationError "Expected EOS")

/-- The caveat `while` loop of `deserialize_v2`, with recursion fuel (each
iteration consumes at least two bytes, so `data.length + 1` suffices). The
`tag` argument is the tag already read for this iteration. -/
def v2ParseCaveats : Nat → Nat → Bytes → List Caveat → RustRes (List Caveat × Bytes)
  | 0, _, _, _ => .err .noFuel
  | fuel + 1, tag, data, acc =>
    if tag = 0 then .ok (acc, data)
    else
      (if tag = 1 then
        (v2GetField data).bind fun fr =>
          match utf8Decode fr.1 with
          | none => .err .utf8Error
          | some loc =>
            (v2GetByte fr.2).bind fun tr =>
              if tr.1 = 2 then
                (v2GetField tr.2).bind fun fr2 =>
                  match utf8Decode fr2.1 with
                  | none => .err .utf8Error
                  | some cid => .ok ((⟨cid, none, some loc⟩ : Caveat), fr2.2)
              else .err (.deserializationError "Caveat identifier not found")
      else if tag = 2 then
        (v2GetField data).bind fun fr =>
          match utf8Decode fr.1 with
          | none => .err .utf8Error
          | some cid => .ok ((⟨cid, none, none⟩ : Caveat), fr.2)
      else
        (.err (.deserializationError "Caveat identifier not found") :
          RustRes (Caveat × Bytes))).bind fun cr =>
      (v2GetByte cr.2).bind fun tr3 =>
        if tr3.1 = 4 then
          (v2GetField tr3.2).bind fun fr3 =>
            match utf8Decode fr3.1 with
            | none => .err .utf8Error
            | some vids =>
              (v2GetEos fr3.2).bind fun er =>
                (v2GetByte er.2).bind fun tr4 =>
                  v2ParseCaveats fuel tr4.1 tr4.2
                    (acc ++ [{ cr.1 with verifier_id := some (utf8Encode vids) }])
        else if tr3.1 = 0 then
          (v2GetByte tr3.2).bind fun tr4 =>
            v2ParseCaveats fuel tr4.1 tr4.2 (acc ++ [cr.1])
        else .err (.deserializationError "Unexpected caveat tag found")

/-- `deserialize_v2`: version byte, location/identifier header, EOS, caveat
loop, signature field. Trailing bytes after the signature are ignored, as in
the source. -/
def deserialize_v2 (data : Bytes) : RustRes Macaroon :=
  (v2GetByte data).bind fun vr =>
    if vr.1 ≠ 2 then .err (.deserializationError "Wrong version number")
    else
      (v2GetByte vr.2).bind fun tr =>
        (if tr.1 = 1 then
          (v2GetField tr.2).bind fun fr =>
            match utf8Decode fr.1 with
            | none => .err .utf8Error
            | some loc =>
              (v2GetByte fr.2).bind fun tr2 =>
                if tr2.1 = 2 then
                  (v2GetField tr2.2).bind fun fr2 =>
                    match utf8Decode fr2.1 with
                    | none => .err .utf8Error
                    | some ident => .ok ((some loc, ident), fr2.2)
                else .err (.deserializationError "Identifier not found")
        else if tr.1 = 2 then
          (v2GetField tr.2).bind fun fr =>
            match utf8Decode fr.1 with
            | none => .err .utf8Error
            | some ident => .ok (((none : Option RStr), ident), fr.2)
        else
          (.err (.deserializationError "Identifier not found") :
            RustRes ((Option RStr × RStr) × Bytes))).bind fun hr =>
        (v2GetEos hr.2).bind fun er =>
          (v2GetByte er.2).bind fun ctr =>
            (v2ParseCaveats (ctr.2.length + 1) ctr.1 ctr.2 []).bind fun cr =>
              (v2GetByte cr.2).bind fun sr =>
                if sr.1 = 6 then
                  (v2GetField sr.2).bind fun fr =>
                    .ok ⟨hr.1.1, hr.1.2, fr.1, cr.1⟩
                else .err (.deserializationError "Unexpected tag found")

/-- The JSON-side struct of one caveat in V2J (`CaveatV2J`). -/
structure CaveatV2J : Type where
  i : Option RStr
  i64 : Option RStr
  l : Option RStr
  l64 : Option RStr
  v : Option RStr
  v64 : Option RStr
deriving DecidableEq, Repr

/-- The JSON-side struct of a macaroon in V2J (`V2JSerialization`). -/
structure V2JSerialization : Type where
  v : Nat
  i : Option RStr
  i64 : Option RStr
  l : Option RStr
  l64 : Option RStr
  c : List CaveatV2J
  s : Option Bytes
  s64 : Option RStr
deriving DecidableEq, Repr

/-- `From<&Macaroon> for V2JSerialization`: raw fields plus a base64
signature. (The source moves the byte-typed `verifier_id` into the
string-typed `v` field unchanged; in the model both sides are `List Nat`.) -/
def v2jOfMacaroon (m : Macaroon) : V2JSerialization :=
  { v := 2
    i := some m.identifier
    i64 := none
    l := m.location
    l64 := none
    c := m.caveats.map fun cav =>
      ⟨some cav.id, none, cav.location, none, cav.verifier_id, none⟩
    s := none
    s64 := some (base64Encode m.signature) }

/-- The caveat part of `TryFrom<V2JSerialization>`: raw form preferred, the
base64 form decoded and UTF-8 checked; a caveat with neither id form is an
error. Note the source performs no duplicate-form check at this level. -/
def v2jCaveatOf (c : CaveatV2J) : RustRes Caveat :=
  ((match c.i with
   | some id => .ok id
   | none =>
     match c.i64 with
     | some id64 =>
       (base64Decode (utf8Encode id64)).bind fun bs =>
         match utf8Decode bs with
         | none => .err .utf8Error
         | some s => .ok s
     | none => .err (.deserializationError "No caveat ID found")) : RustRes RStr).bind fun cid =>
  ((match c.l with
   | some loc => .ok (some loc)
   | none =>
     match c.l64 with
     | some loc64 =>
       (base64Decode (utf8Encode loc64)).bind fun bs =>
         match utf8Decode bs with
         | none => .err .utf8Error
         | some s => .ok (some s)
     | none => .ok none) : RustRes (Option RStr)).bind fun loc =>
  ((match c.v with
   | some vid => .ok (some (utf8Encode vid))
   | none =>
     match c.v64 with
     | some vid64 =>
       (base64Decode (utf8Encode vid64)).bind fun bs =>
         match utf8Decode bs with
         | none => .err .utf8Error
         | some s => .ok (some (utf8Encode s))
     | none => .ok none) : RustRes (Option Bytes)).bind fun vid =>
  .ok ⟨cid, vid, loc⟩

/-- Fold the caveat conversions in order. -/
def v2jCaveatsOf : List CaveatV2J → RustRes (List Caveat)
  | [] => .ok []
  | c :: rest =>
    (v2jCaveatOf c).bind fun cav =>
      (v2jCaveatsOf rest).map (cav :: ·)

/-- `TryFrom<V2JSerialization> for Macaroon`: the three macaroon-level
duplicate-form checks, then field extraction. -/
def macaroonOfV2J (ser : V2JSerialization) : RustRes Macaroon :=
  if ser.i.isSome ∧ ser.i64.isSome then
    .err (.deserializationError "Found i and i64 fields")
  else if ser.l.isSome ∧ ser.l64.isSome then
    .err (.deserializationError "Found l and l64 fields")
  else if ser.s.isSome ∧ ser.s64.isSome then
    .err (.deserializationError "Found s and s64 fields")
  else
    ((match ser.i with
     | some id => .ok id
     | none =>
       match ser.i64 with
       | some id64 =>
         (base64Decode (utf8Encode id64)).bind fun bs =>
           match utf8Decode bs with
           | none => .err .utf8Error
           | some s => .ok s
       | none => .err (.deserializationError "No identifier found")) : RustRes RStr).bind fun ident =>
    ((match ser.l with
     | some loc => .ok (some loc)
     | none =>
       match ser.l64 with
       | some loc64 =>
         (base64Decode (utf8Encode loc64)).bind fun bs =>
           match utf8Decode bs with
           | none => .err .utf8Error
           | some s => .ok (some s)
       | none => .ok none) : RustRes (Option RStr)).bind fun loc =>
    ((match ser.s with
     | some sig => .ok sig
     | none =>
       match ser.s64 with
       | some sig64 => base64Decode (utf8Encode sig64)
       | none => .err (.deserializationError "No signature found")) : RustRes Bytes).bind fun sig =>
    (v2jCaveatsOf ser.c).bind fun cavs =>
    .ok ⟨loc, ident, sig, cavs⟩

/-- The three wire formats. -/
inductive Format : Type where
  | V1 : Format
  | V2 : Format
  | V2J : Format
deriving DecidableEq, Repr

/-- `Macaroon::create`. -/
def Macaroon.create (cp : CryptoPrim) (location : RStr) (key : Bytes) (identifier : RStr) :
    RustRes Macaroon :=
  (generate_derived_key cp key).bind fun derived =>
    Macaroon.validate ⟨some location, identifier, cp.hmacFn derived (utf8Encode identifier), []⟩

/-- `Macaroon::add_first_party_caveat` on `&mut self`: the returned pair is
(result, final state of `self`). The source assigns the new signature
*before* validating the caveat, so a failing validation leaves the
signature already overwritten. -/
def Macaroon.add_first_party_caveat (cp : CryptoPrim) (m : Macaroon) (predicate : RStr) :
    RustRes Unit × Macaroon :=
  match hmac_vec cp m.signature (utf8Encode predicate) with
  | .panicked => (.panicked, m)
  | .err e => (.err e, m)
  | .ok sig =>
    match Caveat.new predicate none none with
    | .panicked => (.panicked, { m with signature := sig })
    | .err e => (.err e, { m with signature := sig })
    | .ok cav => (.ok (), { m with signature := sig, caveats := m.caveats ++ [cav] })

/-- `Macaroon::add_third_party_caveat` on `&mut self`, with the random nonce
passed explicitly. The source seals with plaintext `self.signature` under
the key `derived_key` and discards the nonce; the new signature is
`hmac2(old, vid, id)` and is assigned after the caveat is pushed. -/
def Macaroon.add_third_party_caveat (cp : CryptoPrim) (nonce : Bytes) (m : Macaroon)
    (location : RStr) (key : Bytes) (id : RStr) : RustRes Unit × Macaroon :=
  match generate_derived_key cp key with
  | .panicked => (.panicked, m)
  | .err e => (.err e, m)
  | .ok derived =>
    let vid := cp.sealFn derived nonce m.signature
    match hmac2 cp m.signature vid (utf8Encode id) with
    | .panicked => (.panicked, m)
    | .err e => (.err e, m)
    | .ok sig =>
      match Caveat.new id (some vid) (some location) with
      | .panicked => (.panicked, m)
      | .err e => (.err e, m)
      | .ok cav => (.ok (), { m with caveats := m.caveats ++ [cav], signature := sig })

/-- `Macaroon::serialize`; the JSON printing of the V2J structure is the
external `serde_json::to_string`, passed as `jprint`. -/
def Macaroon.serialize (jprint : V2JSerialization → Bytes) (m : Macaroon) (format : Format) :
    RustRes Bytes :=
  match format with
  | .V1 => serialize_v1 m
  | .V2 => serialize_v2 m
  | .V2J => .ok (jprint (v2jOfMacaroon m))

/-- `Macaroon::deserialize`: first-byte dispatch, then `validate`. The JSON
parsing of a V2J input is the external `serde_json::from_slice`, passed as
`jparse`. Indexing `data[0]` on an empty input panics. -/
def Macaroon.deserialize (jparse : Bytes → RustRes V2JSerialization) (data : Bytes) :
    RustRes Macaroon :=
  match data with
  | [] => .panicked
  | b :: _ =>
    (if b = 123 then (jparse data).bind macaroonOfV2J
     else if b = 2 then deserialize_v2 data
     else if (97 ≤ b ∧ b ≤ 122) ∨ (65 ≤ b ∧ b ≤ 90) ∨ (48 ≤ b ∧ b ≤ 57) ∨
         b = 43 ∨ b = 45 ∨ b = 47 ∨ b = 95 then deserialize_v1 data
     else .err .unknownSerialization).bind Macaroon.validate

/-- `constant_time_eq` of the primitives adapter: byte-wise equality (the
timing aspect has no observable counterpart in the model). -/
def constant_time_eq (a b : Bytes) : Bool := a == b

/-- `hmac_chain(key, t1, t2) = HMAC(key, HMAC(key,t1) ++ HMAC(key,t2))`
(spec §4.1), the signature update for third-party caveats. -/
def hmacChain (cp : CryptoPrim) (key t1 t2 : Bytes) : Bytes :=
  cp.hmacFn key (cp.hmacFn key t1 ++ cp.hmacFn key t2)

/-- The verifier of `verifier.rs`: exact predicates, callbacks and discharge
macaroons. The mutable walk state (`signature`, `id_chain`) is threaded
through the verification functions explicitly. -/
structure Verifier : Type where
  predicates : List RStr
  callbacks : List (RStr → Bool)
  discharge_macaroons : List Macaroon

/-- `Verifier::verify_predicate`: an exact match or a successful callback. -/
def Verifier.verify_predicate (v : Verifier) (predicate : RStr) : Bool :=
  if 0 < (v.predicates.filter (fun p => p == predicate)).length then true
  else if 0 < (v.callbacks.filter (fun cb => cb predicate)).length then true
  else false

/-- Modelled from the spec: the caveat walk of `verify` (§4.5 step 2), which
is not among the three source files (its callers and helpers in
`verifier.rs` are). First-party caveats must satisfy a registered predicate
and roll `signature := HMAC(signature, id)`; third-party caveats are
delegated to `vcav` (the discharge recursion) and roll
`signature := hmac_chain(signature, vid, id)`. Returns the outcome, the
final rolling signature and the updated visited-id chain. -/
def walkCaveats (cp : CryptoPrim) (v : Verifier)
    (vcav : Caveat → Bytes → List RStr → RustRes (Bool × List RStr)) :
    List Caveat → Bytes → List RStr → RustRes (Bool × Bytes × List RStr)
  | [], sig, chain => .ok (true, sig, chain)
  | c :: rest, sig, chain =>
    match c.verifier_id with
    | none =>
      if v.verify_predicate c.id then
        walkCaveats cp v vcav rest (cp.hmacFn sig (utf8Encode c.id)) chain
      else .ok (false, sig, chain)
    | some vid =>
      (vcav c sig chain).bind fun br =>
        if br.1 then
          walkCaveats cp v vcav rest (hmacChain cp sig vid (utf8Encode c.id)) br.2
        else .ok (false, sig, br.2)

/-- Modelled from the spec: `verify_as_discharge` (§4.5/§4.6), absent from
the sources (called by `Verifier::verify_caveat`). Walks the discharge's
caveats from `HMAC(dkey, d.identifier)` and finishes with the bind check
`d.signature == HMAC(zeros32, root.signature ++ computed_signature)` against
the stored signature of the root macaroon passed down by
`Verifier::verify_caveat`. -/
def verifyAsDischarge (cp : CryptoPrim) (v : Verifier) (root : Macaroon)
    (vcav : Caveat → Bytes → List RStr → RustRes (Bool × List RStr))
    (dm : Macaroon) (dkey : Bytes) (chain : List RStr) : RustRes (Bool × List RStr) :=
  (walkCaveats cp v vcav dm.caveats (cp.hmacFn dkey (utf8Encode dm.identifier)) chain).bind
    fun wr =>
      if wr.1 then
        .ok (constant_time_eq dm.signature
          (cp.hmacFn zeros32 (root.signature ++ wr.2.1)), wr.2.2)
      else .ok (false, wr.2.2)

/-- `Verifier::verify_caveat` (verifier.rs:78-109), parameterized by the
discharge recursion `recurse`: find the discharge by caveat id (no discharge
is `Ok(false)`), refuse an id already in the visited chain (`Ok(false)`,
chain unchanged), push the id, decrypt the verifier id under the current
rolling signature (`?` propagates a decryption error), and verify the
discharge. -/
def verifyCaveatStep (cp : CryptoPrim) (v : Verifier) (root : Macaroon)
    (recurse : Caveat → Bytes → List RStr → RustRes (Bool × List RStr))
    (c : Caveat) (sig : Bytes) (chain : List RStr) : RustRes (Bool × List RStr) :=
  match v.discharge_macaroons.find? (fun dm => dm.identifier == c.id) with
  | none => .ok (false, chain)
  | some dm =>
    if chain.any (fun id => id == dm.identifier) then .ok (false, chain)
    else
      match cp.openFn sig (c.verifier_id.getD []) with
      | none => .err .decryptionError
      | some dkey =>
        verifyAsDischarge cp v root recurse dm dkey (chain ++ [dm.identifier])

/-- The discharge recursion, with explicit gas (one unit per discharge
entered; the canonical gas `discharge_macaroons.length + 1` is proved
sufficient). Defined by `Nat.rec` so that every application to a concrete
gas evaluates definitionally. -/
def verifyCaveatGas (cp : CryptoPrim) (v : Verifier) (root : Macaroon) (gas : Nat) :
    Caveat → Bytes → List RStr → RustRes (Bool × List RStr) :=
  Nat.rec (motive := fun _ => Caveat → Bytes → List RStr → RustRes (Bool × List RStr))
    (fun _ _ _ => .err .noFuel)
    (fun _ ih => verifyCaveatStep cp v root ih)
    gas

/-- Modelled from the spec: `Macaroon::verify` with the real walk (§4.5).
The source `macaroon.rs` carries only a stub (kept below under its source
name); the spec and the tests of `verifier.rs` describe this walk. Derives
the root key, seeds the rolling signature with
`HMAC(derived, identifier)`, walks the caveats with an empty visited chain,
and finally compares the rolling signature against the stored one in
constant time. -/
def Macaroon.verifyWalk (cp : CryptoPrim) (m : Macaroon) (key : Bytes) (v : Verifier) :
    RustRes Bool :=
  let derived := cp.hmacFn keyGenerator key
  let gas := v.discharge_macaroons.length + 1
  (walkCaveats cp v (verifyCaveatGas cp v m gas) m.caveats
      (cp.hmacFn derived (utf8Encode m.identifier)) []).bind fun wr =>
    if wr.1 then .ok (constant_time_eq wr.2.1 m.signature) else .ok false

/-- The `Macaroon::verify` of `macaroon.rs` (lines 78-81): a stub that
ignores its verifier and returns `Ok(true)` unconditionally. -/
def Macaroon.verify (_ : Macaroon) (_ : Verifier) : RustRes Bool := .ok true

/-- Modelled from the spec: `Macaroon::bind` (§4.3), absent from the three
source files (the tests of `verifier.rs` call it):
`discharge.signature = HMAC(zeros32, root.signature ++ discharge.signature)`.
`root` is the `self` of `root.bind(&mut discharge)`. -/
def Macaroon.bindDischarge (cp : CryptoPrim) (root discharge : Macaroon) : Macaroon :=
  { discharge with signature := cp.hmacFn zeros32 (root.signature ++ discharge.signature) }

/-- A concrete executable HMAC stand-in used for witnesses and
counterexamples: 32 bytes, all `< 256`, first byte content-sensitive. -/
def demoHmac (k m : Bytes) : Bytes :=
  ((k.foldl (· + ·) 0 + 3 * m.foldl (· + ·) 0 + m.length + 1) % 256) :: List.replicate 31 0

/-- A concrete injective-by-construction seal stand-in. -/
def demoSeal (k n m : Bytes) : Bytes := 7 :: (k ++ 8 :: (n ++ 9 :: m))

/-- Concrete primitives whose secretbox open always succeeds. -/
def cpDemo : CryptoPrim := ⟨demoHmac, demoSeal, fun _ _ => some zeros32⟩

/-- Concrete primitives whose secretbox open always fails. -/
def cpDemoNoOpen : CryptoPrim := ⟨demoHmac, demoSeal, fun _ _ => none⟩

/-- A stand-in for the external `serde_json::from_slice`. -/
def jsonStub : Bytes → RustRes V2JSerialization :=
  fun _ => .err (.deserializationError "json")

theorem RustRes.bind_eq_ok {α β : Type} {r : RustRes α} {f : α → RustRes β} {b : β}
    (h : r.bind f = .ok b) : ∃ a, r = .ok a ∧ f a = .ok b := by
  cases r with
  | panicked => exact absurd h (by simp [RustRes.bind])
  | err e => exact absurd h (by simp [RustRes.bind])
  | ok a => exact ⟨a, rfl, h⟩

/-- What a successful `Macaroon::validate` guarantees. -/
theorem Macaroon.validate_ok {x m : Macaroon} (h : Macaroon.validate x = .ok m) :
    m = x ∧ m.identifier ≠ [] ∧ m.signature ≠ [] := by
  unfold Macaroon.validate at h
  split_ifs at h with h1 h2
  have h' : x = m := by injection h
  subst h'
  exact ⟨rfl, fun he => h1 (by simp [he]), fun he => h2 (by simp [he])⟩

set_option maxRecDepth 8000

/-- C10: `Macaroon::deserialize` is not total: on the empty input it indexes
`data[0]` without a bounds check and panics rather than returning
`UnknownFormat`; and `deserialize_v1` slices `&packet.value[..32]` of the
signature packet and panics when that value is shorter than 32 bytes (here:
the packet stream `"0012signature abc\n"`, whose signature value is 4
bytes). -/
theorem c10_deserialize_panics :
    (∀ jparse : Bytes → RustRes V2JSerialization, Macaroon.deserialize jparse [] = .panicked) ∧
    deserialize_v1 (base64Encode (utf8Encode (rstr "0012signature abc\n"))) = .panicked :=
  ⟨fun _ => rfl, by decide⟩

/-- C7: the V2 varint decoder inverts the encoder for every length below
256 — including the two-byte encodings from 128 upward that the claim
singles out — but at length 256 the missing widening cast in
`get_field_size` (`(byte & 127) << shift` performed on the `u8` itself)
truncates the second continuation byte's contribution modulo 256 and the
decoder returns 0, so the claimed inversion fails from 256 on. The code
contradicts the spec's varint format and its own 63-bit shift loop. -/
theorem c7_varint_u8_truncation :
    (∀ n, n < 256 → v2GetFieldSize (varint_size n) = .ok (n, [])) ∧
    varint_size 256 = [128, 2] ∧ v2GetFieldSize [128, 2] = .ok (0, []) :=
  ⟨by decide, by decide, by decide⟩

theorem c7_varint_witness :
    130 < 256 ∧ v2GetFieldSize (varint_size 130) = .ok (130, []) :=
  ⟨by decide, c7_varint_u8_truncation.1 130 (by decide)⟩

/-- C2: the `Macaroon::verify` in `macaroon.rs` is a stub returning
`Ok(true)` for every macaroon and verifier, whereas the verification walk
the claim (and spec §4.5) describes — modelled here as
`Macaroon.verifyWalk` — returns `Ok(false)` on a macaroon whose stored
signature differs from the recomputed HMAC chain. The stub contradicts the
tests of `verifier.rs` (for instance `test_simple_macaroon_bad_verifier_key`
expects `Ok(false)`). -/
theorem c2_verify_stub :
    (∀ (m : Macaroon) (v : Verifier), Macaroon.verify m v = .ok true) ∧
    Macaroon.verifyWalk cpDemo ⟨some (rstr "loc"), rstr "keyid", zeros32, []⟩
      (List.replicate 32 1) ⟨[], [], []⟩ = .ok false :=
  ⟨fun _ _ => rfl, by decide⟩

/-- C3: `add_third_party_caveat` seals with the arguments swapped relative
to the claim (and spec §4.3): the stored verifier id is
`seal(key = derived discharge key, plaintext = current signature)` with the
fresh nonce discarded rather than prepended, so it differs from the claimed
`nonce ++ seal(key = signature, plaintext = derived key)`; the signature
update itself is the claimed `hmac_chain(old, vid, id)`. The sealing
direction contradicts `verifier.rs`, which opens the verifier id with the
rolling signature as the key (`crypto::decrypt(self.signature, vid)`). -/
theorem c3_seal_swapped :
    ((Macaroon.add_third_party_caveat cpDemo [1, 2, 3]
        ⟨none, rstr "keyid", List.replicate 32 7, []⟩ (rstr "l3") (List.replicate 32 2)
        (rstr "tp")).2.caveats =
      [⟨rstr "tp", some (demoSeal (demoHmac keyGenerator (List.replicate 32 2)) [1, 2, 3]
          (List.replicate 32 7)), some (rstr "l3")⟩]) ∧
    demoSeal (demoHmac keyGenerator (List.replicate 32 2)) [1, 2, 3] (List.replicate 32 7) ≠
      [1, 2, 3] ++ demoSeal (List.replicate 32 7) [1, 2, 3]
        (demoHmac keyGenerator (List.replicate 32 2)) ∧
    (Macaroon.add_third_party_caveat cpDemo [1, 2, 3]
        ⟨none, rstr "keyid", List.replicate 32 7, []⟩ (rstr "l3") (List.replicate 32 2)
        (rstr "tp")).2.signature =
      hmacChain cpDemo (List.replicate 32 7)
        (demoSeal (demoHmac keyGenerator (List.replicate 32 2)) [1, 2, 3] (List.replicate 32 7))
        (utf8Encode (rstr "tp")) := by
  exact ⟨by decide, by decide, by decide⟩

/-- C4: on an empty predicate, `add_first_party_caveat` does return an
error, but it has already overwritten `self.signature` with
`HMAC(old_signature, "")` before the caveat validation fails; the caveat
list is unchanged. The failed call therefore leaves the macaroon with a
signature that no longer matches the HMAC chain over its caveats, breaking
the invariant the claim asserts is preserved. -/
theorem c4_failed_add_mutates_signature (cp : CryptoPrim) (m : Macaroon)
    (hlen : m.signature.length = 32) (hne : cp.hmacFn m.signature [] ≠ m.signature) :
    (Macaroon.add_first_party_caveat cp m []).1 =
      .err (.badMacaroon "Caveat with no identifier") ∧
    (Macaroon.add_first_party_caveat cp m []).2.caveats = m.caveats ∧
    (Macaroon.add_first_party_caveat cp m []).2.signature ≠ m.signature := by
  have h1 : hmac_vec cp m.signature (utf8Encode []) = .ok (cp.hmacFn m.signature []) := by
    unfold hmac_vec
    rw [utf8Encode_nil, if_neg (by omega)]
  have h2 : Caveat.new ([] : RStr) none none =
      .err (.badMacaroon "Caveat with no identifier") := rfl
  unfold Macaroon.add_first_party_caveat
  rw [h1, h2]
  exact ⟨rfl, rfl, hne⟩

theorem c4_witness :
    ((List.replicate 32 7 : Bytes).length = 32 ∧
      demoHmac (List.replicate 32 7) [] ≠ List.replicate 32 7) ∧
    ((Macaroon.add_first_party_caveat cpDemo ⟨none, rstr "keyid", List.replicate 32 7, []⟩
        []).1 = .err (.badMacaroon "Caveat with no identifier") ∧
      (Macaroon.add_first_party_caveat cpDemo ⟨none, rstr "keyid", List.replicate 32 7, []⟩
        []).2.caveats = (⟨none, rstr "keyid", List.replicate 32 7, []⟩ : Macaroon).caveats ∧
      (Macaroon.add_first_party_caveat cpDemo ⟨none, rstr "keyid", List.replicate 32 7, []⟩
        []).2.signature ≠ (⟨none, rstr "keyid", List.replicate 32 7, []⟩ : Macaroon).signature) :=
  ⟨⟨by decide, by decide⟩,
    c4_failed_add_mutates_signature cpDemo ⟨none, rstr "keyid", List.replicate 32 7, []⟩
      (by decide) (by decide)⟩

/-- C8 counterexample: the V2 input `[2, 2, 1, 'a', 0, 0, 6, 3, 1, 2, 3]`
(identifier `"a"`, 3-byte signature) deserializes successfully, so
deserialization does not enforce a 32-byte signature — `Macaroon::validate`
only rejects an *empty* one. -/
theorem c8_counterexample :
    Macaroon.deserialize jsonStub [2, 2, 1, 97, 0, 0, 6, 3, 1, 2, 3] =
      .ok ⟨none, rstr "a", [1, 2, 3], []⟩ ∧
    ¬((⟨none, rstr "a", [1, 2, 3], []⟩ : Macaroon).signature.length = 32) :=
  ⟨by decide, by decide⟩

/-- C8 (amended): every macaroon successfully returned by `deserialize` (in
any format, under any JSON front end) has a non-empty identifier and a
non-empty — not necessarily 32-byte — signature, because every dispatch
branch ends in `Macaroon::validate`. -/
theorem c8_deserialize_validated (jparse : Bytes → RustRes V2JSerialization)
    (data : Bytes) (m : Macaroon) (h : Macaroon.deserialize jparse data = .ok m) :
    m.identifier ≠ [] ∧ m.signature ≠ [] := by
  cases data with
  | nil => exact absurd h (by simp [Macaroon.deserialize])
  | cons b t =>
    unfold Macaroon.deserialize at h
    obtain ⟨a, _, hv⟩ := RustRes.bind_eq_ok h
    exact (Macaroon.validate_ok hv).2

theorem c8_witness :
    Macaroon.deserialize jsonStub [2, 2, 1, 97, 0, 0, 6, 3, 1, 2, 3] =
      .ok ⟨none, rstr "a", [1, 2, 3], []⟩ ∧
    (⟨none, rstr "a", [1, 2, 3], []⟩ : Macaroon).identifier ≠ [] ∧
    (⟨none, rstr "a", [1, 2, 3], []⟩ : Macaroon).signature ≠ [] :=
  ⟨by decide, c8_deserialize_validated jsonStub [2, 2, 1, 97, 0, 0, 6, 3, 1, 2, 3]
    ⟨none, rstr "a", [1, 2, 3], []⟩ (by decide)⟩

/-- C6 counterexample: a V2J structure whose single caveat carries both `i`
and `i64` deserializes successfully — the raw form is taken and the base64
form (not even valid base64 here) is never looked at — instead of returning
`DeserializationError` as claimed. -/
theorem c6_counterexample :
    macaroonOfV2J ⟨2, some (rstr "id"), none, none, none,
      [⟨some (rstr "x"), some (rstr "!!"), none, none, none, none⟩], some [1], none⟩ =
      .ok ⟨none, rstr "id", [1], [⟨rstr "x", none, none⟩]⟩ := by decide

/-- C6 (amended): the duplicate-form check exists only for the macaroon
level pairs `i`/`i64`, `l`/`l64` and `s`/`s64`, each of which yields a
`DeserializationError`; at the caveat level the conversion performs no such
check and silently prefers the raw form. -/
theorem c6_dual_forms_macaroon_level :
    (∀ ser : V2JSerialization, ser.i.isSome = true → ser.i64.isSome = true →
      macaroonOfV2J ser = .err (.deserializationError "Found i and i64 fields")) ∧
    (∀ ser : V2JSerialization, ser.l.isSome = true → ser.l64.isSome = true →
      ∃ d, macaroonOfV2J ser = .err (.deserializationError d)) ∧
    (∀ ser : V2JSerialization, ser.s.isSome = true → ser.s64.isSome = true →
      ∃ d, macaroonOfV2J ser = .err (.deserializationError d)) ∧
    (∀ (ident : RStr) (sig : Bytes) (ci ci64 : RStr),
      macaroonOfV2J ⟨2, some ident, none, none, none,
        [⟨some ci, some ci64, none, none, none, none⟩], some sig, none⟩ =
      .ok ⟨none, ident, sig, [⟨ci, none, none⟩]⟩) := by
  refine ⟨?_, ?_, ?_, ?_⟩
  · intro ser h1 h2
    unfold macaroonOfV2J
    rw [if_pos ⟨h1, h2⟩]
  · intro ser h1 h2
    unfold macaroonOfV2J
    by_cases hA : ser.i.isSome = true ∧ ser.i64.isSome = true
    · rw [if_pos hA]
      exact ⟨_, rfl⟩
    · rw [if_neg hA, if_pos ⟨h1, h2⟩]
      exact ⟨_, rfl⟩
  · intro ser h1 h2
    unfold macaroonOfV2J
    by_cases hA : ser.i.isSome = true ∧ ser.i64.isSome = true
    · rw [if_pos hA]
      exact ⟨_, rfl⟩
    · rw [if_neg hA]
      by_cases hB : ser.l.isSome = true ∧ ser.l64.isSome = true
      · rw [if_pos hB]
        exact ⟨_, rfl⟩
      · rw [if_neg hB, if_pos ⟨h1, h2⟩]
        exact ⟨_, rfl⟩
  · intro ident sig ci ci64
    rfl

theorem c6_witness :
    ((some (rstr "id") : Option RStr).isSome = true ∧
      macaroonOfV2J ⟨2, some (rstr "id"), some (rstr "aWQ="), none, none, [], some [1], none⟩ =
        .err (.deserializationError "Found i and i64 fields")) ∧
    macaroonOfV2J ⟨2, some (rstr "id"), none, none, none,
        [⟨some (rstr "x"), some (rstr "eQ=="), none, none, none, none⟩], some [2], none⟩ =
      .ok ⟨none, rstr "id", [2], [⟨rstr "x", none, none⟩]⟩ :=
  ⟨⟨rfl, c6_dual_forms_macaroon_level.1
      ⟨2, some (rstr "id"), some (rstr "aWQ="), none, none, [], some [1], none⟩ rfl rfl⟩,
    c6_dual_forms_macaroon_level.2.2.2 (rstr "id") [2] (rstr "x") (rstr "eQ==")⟩

/-- C9 counterexample: binding an already-bound discharge a second time with
the same root changes its signature again — the construction re-hashes, so
binding is not idempotent. -/
theorem c9_counterexample :
    Macaroon.bindDischarge cpDemo ⟨none, rstr "r", zeros32, []⟩
      (Macaroon.bindDischarge cpDemo ⟨none, rstr "r", zeros32, []⟩
        ⟨none, rstr "d", zeros32, []⟩) ≠
    Macaroon.bindDischarge cpDemo ⟨none, rstr "r", zeros32, []⟩
      ⟨none, rstr "d", zeros32, []⟩ := by decide

/-- C9 (amended): binding sets the discharge signature to
`HMAC(zeros32, root.signature ++ discharge.signature)` and leaves the other
fields alone; binding is deterministic (equal root and discharge signatures
give equal bound signatures), and rebinding with the same root is a no-op
exactly when the hash construction happens to have a fixed point there —
not in general. -/
theorem c9_bind_properties (cp : CryptoPrim) (root d : Macaroon) :
    (Macaroon.bindDischarge cp root d).signature =
      cp.hmacFn zeros32 (root.signature ++ d.signature) ∧
    (Macaroon.bindDischarge cp root d).identifier = d.identifier ∧
    (Macaroon.bindDischarge cp root d).caveats = d.caveats ∧
    (Macaroon.bindDischarge cp root d).location = d.location ∧
    (∀ root₂ d₂ : Macaroon, root₂.signature = root.signature →
      d₂.signature = d.signature →
      (Macaroon.bindDischarge cp root₂ d₂).signature =
        (Macaroon.bindDischarge cp root d).signature) ∧
    (Macaroon.bindDischarge cp root (Macaroon.bindDischarge cp root d) =
        Macaroon.bindDischarge cp root d ↔
      cp.hmacFn zeros32
          (root.signature ++ cp.hmacFn zeros32 (root.signature ++ d.signature)) =
        cp.hmacFn zeros32 (root.signature ++ d.signature)) := by
  refine ⟨rfl, rfl, rfl, rfl, ?_, ?_⟩
  · intro root₂ d₂ h1 h2
    simp [Macaroon.bindDischarge, h1, h2]
  · cases d with
    | mk loc ident sig cavs => simp [Macaroon.bindDischarge]

theorem c9_witness :
    (Macaroon.bindDischarge cpDemo ⟨none, rstr "r", zeros32, []⟩
        ⟨none, rstr "d", zeros32, []⟩).signature =
      cpDemo.hmacFn zeros32
        ((⟨none, rstr "r", zeros32, []⟩ : Macaroon).signature ++
          (⟨none, rstr "d", zeros32, []⟩ : Macaroon).signature) ∧
    (Macaroon.bindDischarge cpDemo ⟨none, rstr "r2", zeros32, []⟩
        ⟨none, rstr "d2", zeros32, []⟩).signature =
      (Macaroon.bindDischarge cpDemo ⟨none, rstr "r", zeros32, []⟩
        ⟨none, rstr "d", zeros32, []⟩).signature :=
  ⟨(c9_bind_properties cpDemo ⟨none, rstr "r", zeros32, []⟩
      ⟨none, rstr "d", zeros32, []⟩).1,
    (c9_bind_properties cpDemo ⟨none, rstr "r", zeros32, []⟩
      ⟨none, rstr "d", zeros32, []⟩).2.2.2.2.1 ⟨none, rstr "r2", zeros32, []⟩
      ⟨none, rstr "d2", zeros32, []⟩ rfl rfl⟩

theorem filter_length_mono {α : Type} (l : List α) (p q : α → Bool)
    (h : ∀ x ∈ l, p x = true → q x = true) :
    (l.filter p).length ≤ (l.filter q).length := by
  induction l with
  | nil => simp
  | cons a t ih =>
    have ih' := ih (fun x hx hp => h x (List.mem_cons_of_mem a hx) hp)
    by_cases hpa : p a = true
    · rw [List.filter_cons_of_pos hpa, List.filter_cons_of_pos (h a (by simp) hpa)]
      simpa using ih'
    · rw [List.filter_cons_of_neg (by simpa using hpa)]
      by_cases hqa : q a = true
      · rw [List.filter_cons_of_pos hqa]
        simp only [List.length_cons]
        omega
      · rw [List.filter_cons_of_neg (by simpa using hqa)]
        exact ih'

theorem filter_length_lt {α : Type} (l : List α) (p q : α → Bool) (a : α)
    (ha : a ∈ l) (hpa : p a = true) (hqa : q a = false)
    (h : ∀ x ∈ l, q x = true → p x = true) :
    (l.filter q).length < (l.filter p).length := by
  induction l with
  | nil => exact absurd ha (List.not_mem_nil a)
  | cons b t ih =>
    have hmono := filter_length_mono t q p (fun x hx hq => h x (List.mem_cons_of_mem b hx) hq)
    rcases List.mem_cons.mp ha with hab | hat
    · subst hab
      rw [List.filter_cons_of_neg (by simp [hqa]), List.filter_cons_of_pos hpa]
      simp only [List.length_cons]
      omega
    · have ih' := ih hat (fun x hx hq => h x (List.mem_cons_of_mem b hx) hq)
      by_cases hqb : q b = true
      · rw [List.filter_cons_of_pos hqb, List.filter_cons_of_pos (h b (by simp) hqb)]
        simpa using ih'
      · rw [List.filter_cons_of_neg (by simpa using hqb)]
        by_cases hpb : p b = true
        · rw [List.filter_cons_of_pos hpb]
          simp only [List.length_cons]
          omega
        · rw [List.filter_cons_of_neg (by simpa using hpb)]
          exact ih'

/-- The number of discharge macaroons whose identifier is not yet in the
visited chain: the measure that bounds the discharge recursion. -/
def unvisited (v : Verifier) (chain : List RStr) : Nat :=
  (v.discharge_macaroons.filter
    (fun dm => !(chain.any (fun id => id == dm.identifier)))).length

theorem unvisited_subset_le (v : Verifier) (chain chain₂ : List RStr)
    (h : chain ⊆ chain₂) : unvisited v chain₂ ≤ unvisited v chain := by
  apply filter_length_mono
  intro dm _ hdm
  simp only [Bool.not_eq_true'] at hdm ⊢
  rcases hany : chain.any (fun id => id == dm.identifier) with _ | _
  · rfl
  · exfalso
    rw [List.any_eq_true] at hany
    obtain ⟨id, hid, hbeq⟩ := hany
    have : chain₂.any (fun id => id == dm.identifier) = true :=
      List.any_eq_true.mpr ⟨id, h hid, hbeq⟩
    rw [this] at hdm
    cases hdm

theorem unvisited_push_lt (v : Verifier) (chain : List RStr) (dm : Macaroon)
    (hmem : dm ∈ v.discharge_macaroons)
    (hnot : chain.any (fun id => id == dm.identifier) = false) :
    unvisited v (chain ++ [dm.identifier]) < unvisited v chain := by
  apply filter_length_lt _ _ _ dm hmem
  · simp [hnot]
  · simp
  · intro dm' _ h
    simp only [Bool.not_eq_true'] at h ⊢
    rcases hany : chain.any (fun id => id == dm'.identifier) with _ | _
    · rfl
    · exfalso
      rw [List.any_eq_true] at hany
      obtain ⟨id, hid, hbeq⟩ := hany
      have : (chain ++ [dm.identifier]).any (fun id => id == dm'.identifier) = true :=
        List.any_eq_true.mpr ⟨id, by simp [hid], hbeq⟩
      rw [this] at h
      cases h

/-- The visited chain only grows through a caveat walk (given that the
discharge recursion only grows it). -/
theorem walkCaveats_chain_mono (cp : CryptoPrim) (v : Verifier)
    (f : Caveat → Bytes → List RStr → RustRes (Bool × List RStr))
    (hf : ∀ c sig chain b ch', f c sig chain = .ok (b, ch') → chain ⊆ ch') :
    ∀ (cavs : List Caveat) (sig : Bytes) (chain : List RStr) (b : Bool) (sig' : Bytes)
      (ch' : List RStr),
      walkCaveats cp v f cavs sig chain = .ok (b, sig', ch') → chain ⊆ ch' := by
  intro cavs
  induction cavs with
  | nil =>
    intro sig chain b sig' ch' h
    simp only [walkCaveats, RustRes.ok.injEq, Prod.mk.injEq] at h
    rw [← h.2.2]
    exact fun x hx => hx
  | cons c rest ih =>
    intro sig chain b sig' ch' h
    simp only [walkCaveats] at h
    cases hvid : c.verifier_id with
    | none =>
      rw [hvid] at h
      simp only [] at h
      by_cases hpred : v.verify_predicate c.id = true
      · rw [if_pos hpred] at h
        exact ih _ _ _ _ _ h
      · rw [if_neg hpred] at h
        simp only [RustRes.ok.injEq, Prod.mk.injEq] at h
        rw [← h.2.2]
        exact fun x hx => hx
    | some vid =>
      rw [hvid] at h
      simp only [] at h
      cases hf0 : f c sig chain with
      | panicked => rw [hf0] at h; cases h
      | err e => rw [hf0] at h; cases h
      | ok br =>
        rw [hf0] at h
        simp only [RustRes.bind] at h
        have hsub : chain ⊆ br.2 := hf _ _ _ _ _ (by rw [hf0])
        by_cases hb : br.1 = true
        · rw [if_pos hb] at h
          exact hsub.trans (ih _ _ _ _ _ h)
        · rw [if_neg hb] at h
          simp only [RustRes.ok.injEq, Prod.mk.injEq] at h
          rw [← h.2.2]
          exact hsub

theorem verifyCaveatGas_succ (cp : CryptoPrim) (v : Verifier) (root : Macaroon) (gas : Nat) :
    verifyCaveatGas cp v root (gas + 1) =
      verifyCaveatStep cp v root (verifyCaveatGas cp v root gas) := rfl

theorem verifyAsDischarge_chain_mono (cp : CryptoPrim) (v : Verifier) (root : Macaroon)
    (f : Caveat → Bytes → List RStr → RustRes (Bool × List RStr))
    (hf : ∀ c sig chain b ch', f c sig chain = .ok (b, ch') → chain ⊆ ch')
    (dm : Macaroon) (dkey : Bytes) (chain : List RStr) (b : Bool) (ch' : List RStr)
    (h : verifyAsDischarge cp v root f dm dkey chain = .ok (b, ch')) : chain ⊆ ch' := by
  unfold verifyAsDischarge at h
  cases hw : walkCaveats cp v f dm.caveats (cp.hmacFn dkey (utf8Encode dm.identifier)) chain with
  | panicked => rw [hw] at h; cases h
  | err e => rw [hw] at h; cases h
  | ok wr =>
    rw [hw] at h
    simp only [RustRes.bind] at h
    have hsub : chain ⊆ wr.2.2 :=
      walkCaveats_chain_mono cp v f hf dm.caveats _ chain wr.1 wr.2.1 wr.2.2
        (by rw [hw])
    by_cases hb : wr.1 = true
    · rw [if_pos hb] at h
      simp only [RustRes.ok.injEq, Prod.mk.injEq] at h
      rw [← h.2]
      exact hsub
    · rw [if_neg hb] at h
      simp only [RustRes.ok.injEq, Prod.mk.injEq] at h
      rw [← h.2]
      exact hsub

/-- The discharge recursion only ever extends the visited chain. -/
theorem verifyCaveatGas_chain_mono (cp : CryptoPrim) (v : Verifier) (root : Macaroon) :
    ∀ (gas : Nat) (c : Caveat) (sig : Bytes) (chain : List RStr) (b : Bool)
      (ch' : List RStr),
      verifyCaveatGas cp v root gas c sig chain = .ok (b, ch') → chain ⊆ ch' := by
  intro gas
  induction gas with
  | zero => intro c sig chain b ch' h; cases h
  | succ g ih =>
    intro c sig chain b ch' h
    rw [verifyCaveatGas_succ] at h
    unfold verifyCaveatStep at h
    cases hfind : v.discharge_macaroons.find? (fun dm => dm.identifier == c.id) with
    | none =>
      rw [hfind] at h
      simp only [RustRes.ok.injEq, Prod.mk.injEq] at h
      rw [← h.2]
      exact fun x hx => hx
    | some dm =>
      rw [hfind] at h
      simp only [] at h
      by_cases hany : chain.any (fun id => id == dm.identifier) = true
      · rw [if_pos hany] at h
        simp only [RustRes.ok.injEq, Prod.mk.injEq] at h
        rw [← h.2]
        exact fun x hx => hx
      · rw [if_neg hany] at h
        cases hopen : cp.openFn sig (c.verifier_id.getD []) with
        | none => rw [hopen] at h; cases h
        | some dkey =>
          rw [hopen] at h
          have hsub := verifyAsDischarge_chain_mono cp v root _ ih dm dkey
            (chain ++ [dm.identifier]) b ch' h
          exact (List.subset_append_left chain [dm.identifier]).trans hsub

/-- Totality of the caveat walk, given totality of the discharge recursion
at the same gas. -/
theorem walkCaveats_total (cp : CryptoPrim) (v : Verifier) (root : Macaroon) (gas : Nat)
    (hvc : ∀ (chain : List RStr), unvisited v chain < gas → ∀ c sig,
      ∃ b ch', verifyCaveatGas cp v root gas c sig chain = .ok (b, ch')) :
    ∀ (cavs : List Caveat) (sig : Bytes) (chain : List RStr), unvisited v chain < gas →
      ∃ b sig' ch',
        walkCaveats cp v (verifyCaveatGas cp v root gas) cavs sig chain =
          .ok (b, sig', ch') := by
  intro cavs
  induction cavs with
  | nil => exact fun sig chain _ => ⟨true, sig, chain, rfl⟩
  | cons c rest ih =>
    intro sig chain hlt
    cases hvid : c.verifier_id with
    | none =>
      by_cases hpred : v.verify_predicate c.id = true
      · obtain ⟨b, sig', ch', hw⟩ := ih (cp.hmacFn sig (utf8Encode c.id)) chain hlt
        refine ⟨b, sig', ch', ?_⟩
        simp only [walkCaveats, hvid, if_pos hpred]
        exact hw
      · refine ⟨false, sig, chain, ?_⟩
        simp only [walkCaveats, hvid, if_neg hpred]
    | some vid =>
      obtain ⟨b0, ch0, h0⟩ := hvc chain hlt c sig
      have hsub := verifyCaveatGas_chain_mono cp v root gas c sig chain b0 ch0 h0
      have hlt0 : unvisited v ch0 < gas :=
        lt_of_le_of_lt (unvisited_subset_le v chain ch0 hsub) hlt
      by_cases hb : b0 = true
      · obtain ⟨b, sig', ch', hw⟩ := ih (hmacChain cp sig vid (utf8Encode c.id)) ch0 hlt0
        refine ⟨b, sig', ch', ?_⟩
        simp only [walkCaveats, hvid, h0, RustRes.bind]
        rw [if_pos hb]
        exact hw
      · refine ⟨false, sig, ch0, ?_⟩
        simp only [walkCaveats, hvid, h0, RustRes.bind]
        rw [if_neg hb]

/-- With an always-succeeding secretbox open, the discharge recursion always
returns `Ok` when the gas exceeds the number of unvisited discharges: the
fuel bound of the model is adequate and errors are unreachable. -/
theorem verifyCaveatGas_total (cp : CryptoPrim) (v : Verifier) (root : Macaroon)
    (hopen : ∀ k ct, (cp.openFn k ct).isSome = true) :
    ∀ (gas : Nat) (chain : List RStr), unvisited v chain < gas → ∀ c sig,
      ∃ b ch', verifyCaveatGas cp v root gas c sig chain = .ok (b, ch') := by
  intro gas
  induction gas with
  | zero => intro chain h; omega
  | succ g ih =>
    intro chain hlt c sig
    rw [verifyCaveatGas_succ]
    unfold verifyCaveatStep
    cases hfind : v.discharge_macaroons.find? (fun dm => dm.identifier == c.id) with
    | none => exact ⟨false, chain, rfl⟩
    | some dm =>
      simp only []
      by_cases hany : chain.any (fun id => id == dm.identifier) = true
      · rw [if_pos hany]
        exact ⟨false, chain, rfl⟩
      · rw [if_neg hany]
        obtain ⟨dkey, hdk⟩ := Option.isSome_iff_exists.mp (hopen sig (c.verifier_id.getD []))
        rw [hdk]
        simp only []
        have hmem : dm ∈ v.discharge_macaroons := List.mem_of_find?_eq_some hfind
        have hlt' : unvisited v (chain ++ [dm.identifier]) < g := by
          have := unvisited_push_lt v chain dm hmem
            (by simp only [Bool.not_eq_true] at hany; exact hany)
          omega
        obtain ⟨bw, sigw, chw, hw⟩ := walkCaveats_total cp v root g ih dm.caveats
          (cp.hmacFn dkey (utf8Encode dm.identifier)) (chain ++ [dm.identifier]) hlt'
        unfold verifyAsDischarge
        rw [hw]
        by_cases hbw : bw = true
        · refine ⟨constant_time_eq dm.signature (cp.hmacFn zeros32 (root.signature ++ sigw)),
            chw, ?_⟩
          simp only [RustRes.bind]
          rw [if_pos hbw]
        · refine ⟨false, chw, ?_⟩
          simp only [RustRes.bind]
          rw [if_neg hbw]

/-- A set `C` of identifiers is cycle-closed for a verifier when every
discharge that `find?` selects for an identifier in `C` carries a
third-party caveat whose id is again in `C` — the shape of a discharge
cycle. -/
def CycleClosed (v : Verifier) (C : List RStr) : Bool :=
  C.all fun id =>
    match v.discharge_macaroons.find? (fun d => d.identifier == id) with
    | none => true
    | some dm => dm.caveats.any fun c => c.verifier_id.isSome && C.any (fun x => x == c.id)

theorem cycleClosed_spec (v : Verifier) (C : List RStr) (h : CycleClosed v C = true)
    (id : RStr) (hid : id ∈ C) (dm : Macaroon)
    (hfind : v.discharge_macaroons.find? (fun d => d.identifier == id) = some dm) :
    ∃ c ∈ dm.caveats, c.verifier_id.isSome = true ∧ c.id ∈ C := by
  have hall := List.all_eq_true.mp h id hid
  rw [hfind] at hall
  simp only [] at hall
  obtain ⟨c, hc, hcc⟩ := List.any_eq_true.mp hall
  rw [Bool.and_eq_true] at hcc
  obtain ⟨x, hx, hbeq⟩ := List.any_eq_true.mp hcc.2
  have hxe : x = c.id := by simpa using hbeq
  exact ⟨c, hc, hcc.1, hxe ▸ hx⟩

/-- A caveat walk that reaches a third-party caveat whose id lies in a
cycle-closed set comes back `false` (given the two facts about the
recursion at this gas: totality, and `false` on cycle ids). -/
theorem walkCaveats_cycle (cp : CryptoPrim) (v : Verifier) (root : Macaroon) (C : List RStr)
    (gas : Nat)
    (hvc_total : ∀ (chain : List RStr), unvisited v chain < gas → ∀ c sig,
      ∃ b ch', verifyCaveatGas cp v root gas c sig chain = .ok (b, ch'))
    (hvc_false : ∀ (chain : List RStr) (c : Caveat) (sig : Bytes),
      unvisited v chain < gas → c.id ∈ C →
      ∃ ch', verifyCaveatGas cp v root gas c sig chain = .ok (false, ch')) :
    ∀ (cavs : List Caveat) (sig : Bytes) (chain : List RStr), unvisited v chain < gas →
      (∃ c ∈ cavs, c.verifier_id.isSome = true ∧ c.id ∈ C) →
      ∃ sig' ch',
        walkCaveats cp v (verifyCaveatGas cp v root gas) cavs sig chain =
          .ok (false, sig', ch') := by
  intro cavs
  induction cavs with
  | nil =>
    intro sig chain _ hex
    obtain ⟨c, hc, _⟩ := hex
    exact absurd hc (List.not_mem_nil c)
  | cons c0 rest ih =>
    intro sig chain hlt hex
    obtain ⟨c', hc', hsome, hidC⟩ := hex
    rcases List.mem_cons.mp hc' with heq | hrest
    · subst heq
      obtain ⟨vid, hvid⟩ := Option.isSome_iff_exists.mp hsome
      obtain ⟨ch', h0⟩ := hvc_false chain c' sig hlt hidC
      refine ⟨sig, ch', ?_⟩
      simp only [walkCaveats, hvid, h0, RustRes.bind]
      rw [if_neg (by simp)]
    · cases hvid0 : c0.verifier_id with
      | none =>
        by_cases hpred : v.verify_predicate c0.id = true
        · obtain ⟨sig', ch', hw⟩ := ih (cp.hmacFn sig (utf8Encode c0.id)) chain hlt
            ⟨c', hrest, hsome, hidC⟩
          refine ⟨sig', ch', ?_⟩
          simp only [walkCaveats, hvid0, if_pos hpred]
          exact hw
        · refine ⟨sig, chain, ?_⟩
          simp only [walkCaveats, hvid0, if_neg hpred]
      | some vid =>
        obtain ⟨b0, ch0, h0⟩ := hvc_total chain hlt c0 sig
        have hsub := verifyCaveatGas_chain_mono cp v root gas c0 sig chain b0 ch0 h0
        have hlt0 : unvisited v ch0 < gas :=
          lt_of_le_of_lt (unvisited_subset_le v chain ch0 hsub) hlt
        by_cases hb : b0 = true
        · obtain ⟨sig', ch', hw⟩ := ih (hmacChain cp sig vid (utf8Encode c0.id)) ch0 hlt0
            ⟨c', hrest, hsome, hidC⟩
          refine ⟨sig', ch', ?_⟩
          simp only [walkCaveats, hvid0, h0, RustRes.bind]
          rw [if_pos hb]
          exact hw
        · refine ⟨sig, ch0, ?_⟩
          simp only [walkCaveats, hvid0, h0, RustRes.bind]
          rw [if_neg hb]

/-- A discharge recursion entered on a caveat whose id lies in a
cycle-closed set returns `Ok(false)` (with successful secretbox opens and
enough gas). -/
theorem verifyCaveatGas_cycle_false (cp : CryptoPrim) (v : Verifier) (root : Macaroon)
    (C : List RStr) (hopen : ∀ k ct, (cp.openFn k ct).isSome = true)
    (hcc : CycleClosed v C = true) :
    ∀ (gas : Nat) (chain : List RStr) (c : Caveat) (sig : Bytes),
      unvisited v chain < gas → c.id ∈ C →
      ∃ ch', verifyCaveatGas cp v root gas c sig chain = .ok (false, ch') := by
  intro gas
  induction gas with
  | zero => intro chain c sig h; omega
  | succ g ih =>
    intro chain c sig hlt hid
    rw [verifyCaveatGas_succ]
    unfold verifyCaveatStep
    cases hfind : v.discharge_macaroons.find? (fun dm => dm.identifier == c.id) with
    | none => exact ⟨chain, rfl⟩
    | some dm =>
      simp only []
      by_cases hany : chain.any (fun id => id == dm.identifier) = true
      · rw [if_pos hany]
        exact ⟨chain, rfl⟩
      · rw [if_neg hany]
        obtain ⟨dkey, hdk⟩ := Option.isSome_iff_exists.mp (hopen sig (c.verifier_id.getD []))
        rw [hdk]
        simp only []
        have hmem : dm ∈ v.discharge_macaroons := List.mem_of_find?_eq_some hfind
        have hlt' : unvisited v (chain ++ [dm.identifier]) < g := by
          have := unvisited_push_lt v chain dm hmem
            (by simp only [Bool.not_eq_true] at hany; exact hany)
          omega
        obtain ⟨c', hc', hp⟩ := cycleClosed_spec v C hcc c.id hid dm hfind
        obtain ⟨sig', ch', hw⟩ := walkCaveats_cycle cp v root C g
          (fun ch h => verifyCaveatGas_total cp v root hopen g ch h) ih dm.caveats
          (cp.hmacFn dkey (utf8Encode dm.identifier)) (chain ++ [dm.identifier]) hlt'
          ⟨c', hc', hp⟩
        refine ⟨ch', ?_⟩
        unfold verifyAsDischarge
        rw [hw]
        simp only [RustRes.bind]
        rw [if_neg (by simp)]

/-- A self-referential discharge: its single third-party caveat names its
own identifier. -/
def dmCycle : Macaroon :=
  ⟨none, rstr "other", List.replicate 32 5, [⟨rstr "other", some [9, 9], none⟩]⟩

/-- A macaroon whose third-party caveat enters the cycle of `dmCycle`. -/
def mCycle : Macaroon :=
  ⟨none, rstr "keyid", List.replicate 32 7, [⟨rstr "other", some [8, 8], none⟩]⟩

/-- A verifier holding only the cyclic discharge. -/
def vCycle : Verifier := ⟨[], [], [dmCycle]⟩

/-- C5 counterexample: on a genuinely cyclic discharge configuration
(`dmCycle` refers to itself, and `mCycle`'s caveat enters that cycle), a
secretbox open that fails makes `verify` surface `DecryptionError` through
the `?` in `Verifier::verify_caveat` rather than return `false`; so "the
verify on a macaroon entering a cycle returns false" does not hold
unconditionally. -/
theorem c5_counterexample :
    CycleClosed vCycle [rstr "other"] = true ∧
    (∃ c ∈ mCycle.caveats, c.verifier_id.isSome = true ∧ c.id ∈ [rstr "other"]) ∧
    Macaroon.verifyWalk cpDemoNoOpen mCycle (List.replicate 32 1) vCycle =
      .err .decryptionError :=
  ⟨by decide, by decide, by decide⟩

/-- C5 (amended): (1) the discharge recursion never revisits an identifier
already in the visited chain — when the discharge selected for a caveat is
already in the chain, `verify_caveat` returns `Ok(false)` immediately with
the chain unchanged; (2) whenever the discharges are cycle-closed over a
set `C` of identifiers, the macaroon has a third-party caveat entering `C`,
and the secretbox opens succeed, the whole (total, fuel-adequate)
verification walk returns `Ok(false)`. A failing open instead surfaces
`DecryptionError` (see the counterexample). -/
theorem c5_cycle_safety :
    (∀ (cp : CryptoPrim) (v : Verifier) (root : Macaroon) (gas : Nat) (c : Caveat)
      (sig : Bytes) (chain : List RStr) (dm : Macaroon),
      v.discharge_macaroons.find? (fun d => d.identifier == c.id) = some dm →
      chain.any (fun id => id == dm.identifier) = true →
      verifyCaveatGas cp v root (gas + 1) c sig chain = .ok (false, chain)) ∧
    (∀ (cp : CryptoPrim) (v : Verifier) (m : Macaroon) (key : Bytes) (C : List RStr),
      (∀ k ct, (cp.openFn k ct).isSome = true) → CycleClosed v C = true →
      (∃ c ∈ m.caveats, c.verifier_id.isSome = true ∧ c.id ∈ C) →
      Macaroon.verifyWalk cp m key v = .ok false) := by
  constructor
  · intro cp v root gas c sig chain dm hfind hany
    rw [verifyCaveatGas_succ]
    unfold verifyCaveatStep
    rw [hfind]
    simp only []
    rw [if_pos hany]
  · intro cp v m key C hopen hcc hex
    have hlt : unvisited v [] < v.discharge_macaroons.length + 1 := by
      have := List.length_filter_le
        (fun dm => !(([] : List RStr).any (fun id => id == dm.identifier)))
        v.discharge_macaroons
      unfold unvisited
      omega
    obtain ⟨sig', ch', hw⟩ := walkCaveats_cycle cp v m C
      (v.discharge_macaroons.length + 1)
      (fun ch h => verifyCaveatGas_total cp v m hopen _ ch h)
      (fun ch c sig h hid => verifyCaveatGas_cycle_false cp v m C hopen hcc _ ch c sig h hid)
      m.caveats (cp.hmacFn (cp.hmacFn keyGenerator key) (utf8Encode m.identifier)) [] hlt hex
    unfold Macaroon.verifyWalk
    simp only []
    rw [hw]
    simp only [RustRes.bind]
    rw [if_neg (by simp)]

theorem c5_witness :
    (vCycle.discharge_macaroons.find?
        (fun d => d.identifier == (rstr "other" : RStr)) = some dmCycle ∧
      verifyCaveatGas cpDemo vCycle mCycle 1 ⟨rstr "other", some [8, 8], none⟩
        (List.replicate 32 7) [rstr "other"] = .ok (false, [rstr "other"])) ∧
    Macaroon.verifyWalk cpDemo mCycle (List.replicate 32 1) vCycle = .ok false :=
  ⟨⟨by decide,
      c5_cycle_safety.1 cpDemo vCycle mCycle 0 ⟨rstr "other", some [8, 8], none⟩
        (List.replicate 32 7) [rstr "other"] dmCycle (by decide) (by decide)⟩,
    c5_cycle_safety.2 cpDemo vCycle mCycle (List.replicate 32 1) [rstr "other"]
      (fun _ _ => rfl) (by decide) (by decide)⟩

/-- Apply `add_first_party_caveat` for each predicate in order, stopping at
the first failure (`?` in the caller). -/
def addAll (cp : CryptoPrim) : List RStr → Macaroon → RustRes Macaroon
  | [], m => .ok m
  | p :: rest, m =>
    match Macaroon.add_first_party_caveat cp m p with
    | (.ok _, m') => addAll cp rest m'
    | (.err e, _) => .err e
    | (.panicked, _) => .panicked

/-- `create` followed by a sequence of first-party caveat additions: the
claim's "minted macaroon". -/
def mintFirstParty (cp : CryptoPrim) (location : RStr) (key : Bytes) (ident : RStr)
    (preds : List RStr) : RustRes Macaroon :=
  (Macaroon.create cp location key ident).bind (addAll cp preds)

/-- Shape of a macaroon after a successful run of first-party additions. -/
theorem addAll_ok (cp : CryptoPrim)
    (htag : ∀ k t, (cp.hmacFn k t).length = 32 ∧ ∀ b ∈ cp.hmacFn k t, b < 256) :
    ∀ (preds : List RStr) (m₀ : Macaroon) (m : Macaroon),
      (∀ p ∈ preds, p ≠ []) → m₀.signature.length = 32 →
      addAll cp preds m₀ = .ok m →
      m.location = m₀.location ∧ m.identifier = m₀.identifier ∧
      m.caveats = m₀.caveats ++ preds.map (fun p => ⟨p, none, none⟩) ∧
      (m.signature = m₀.signature ∨ ∃ k t, m.signature = cp.hmacFn k t) := by
  intro preds
  induction preds with
  | nil =>
    intro m₀ m _ _ h
    have h' : m₀ = m := by injection h
    subst h'
    exact ⟨rfl, rfl, by simp, .inl rfl⟩
  | cons p rest ih =>
    intro m₀ m hne hlen h
    have hp : p ≠ [] := hne p (by simp)
    have hadd : Macaroon.add_first_party_caveat cp m₀ p =
        (.ok (), (⟨m₀.location, m₀.identifier, cp.hmacFn m₀.signature (utf8Encode p),
          m₀.caveats ++ [⟨p, none, none⟩]⟩ : Macaroon)) := by
      unfold Macaroon.add_first_party_caveat
      rw [show hmac_vec cp m₀.signature (utf8Encode p) =
          .ok (cp.hmacFn m₀.signature (utf8Encode p)) from by
        unfold hmac_vec; rw [if_neg (by omega)]]
      rw [show Caveat.new p none none = .ok ⟨p, none, none⟩ from by
        unfold Caveat.new Caveat.validate
        rw [if_neg (by simpa using hp)]]
    unfold addAll at h
    rw [hadd] at h
    have hrec := ih ⟨m₀.location, m₀.identifier, cp.hmacFn m₀.signature (utf8Encode p),
        m₀.caveats ++ [⟨p, none, none⟩]⟩ m
      (fun q hq => hne q (by simp [hq])) (htag _ _).1 h
    refine ⟨hrec.1, hrec.2.1, ?_, ?_⟩
    · rw [hrec.2.2.1]
      simp
    · rcases hrec.2.2.2 with heq | hex
      · exact .inr ⟨m₀.signature, utf8Encode p, heq⟩
      · exact .inr hex

/-- Shape of a successfully minted first-party-only macaroon. -/
theorem mintFirstParty_ok (cp : CryptoPrim)
    (htag : ∀ k t, (cp.hmacFn k t).length = 32 ∧ ∀ b ∈ cp.hmacFn k t, b < 256)
    (location : RStr) (key : Bytes) (ident : RStr) (preds : List RStr) (m : Macaroon)
    (hident : ident ≠ []) (hpreds : ∀ p ∈ preds, p ≠ [])
    (hm : mintFirstParty cp location key ident preds = .ok m) :
    m.location = some location ∧ m.identifier = ident ∧
    m.caveats = preds.map (fun p => ⟨p, none, none⟩) ∧
    m.signature.length = 32 ∧ (∀ b ∈ m.signature, b < 256) := by
  unfold mintFirstParty at hm
  have hc : Macaroon.create cp location key ident =
      .ok ⟨some location, ident,
        cp.hmacFn (cp.hmacFn keyGenerator key) (utf8Encode ident), []⟩ := by
    unfold Macaroon.create generate_derived_key hmac_vec
    rw [if_neg (by decide)]
    unfold Macaroon.validate
    simp only [RustRes.bind]
    rw [if_neg (by simpa using hident), if_neg (by
      have := (htag (cp.hmacFn keyGenerator key) (utf8Encode ident)).1
      simp only [List.isEmpty_eq_true]
      intro he
      rw [he] at this
      simp at this)]
  rw [hc] at hm
  simp only [RustRes.bind] at hm
  have hshape := addAll_ok cp htag preds _ m hpreds (htag _ _).1 hm
  refine ⟨hshape.1, hshape.2.1, by simpa using hshape.2.2.1, ?_, ?_⟩
  · rcases hshape.2.2.2 with heq | ⟨k, t, heq⟩ <;> rw [heq]
    · exact (htag _ _).1
    · exact (htag _ _).1
  · rcases hshape.2.2.2 with heq | ⟨k, t, heq⟩ <;> rw [heq]
    · exact (htag _ _).2
    · exact (htag _ _).2

theorem varint_lo (n : Nat) (h1 : n < 128) : varint_size n = [n] := by
  unfold varint_size
  simp only [varintAux, if_pos h1]

theorem varint_hi (n : Nat) (h1 : 128 ≤ n) (h2 : n < 16384) :
    varint_size n = [n % 128 + 128, n / 128] := by
  unfold varint_size
  cases n with
  | zero => omega
  | succ m =>
    simp only [varintAux]
    rw [if_neg (by omega), if_pos (by omega)]

theorem varintDecLo : ∀ n, n < 128 → (n &&& 128 = 0) ∧ (0 ||| n <<< (0 % 8) % 256 = n) := by
  decide

theorem varintDecHi : ∀ a, a < 128 → ((a + 128) &&& 128 ≠ 0) ∧
    ((0 ||| (a + 128 &&& 127) <<< (0 % 8) % 256) ||| 1 <<< (7 % 8) % 256 = a + 128) := by
  decide

/-- The varint decoder inverts the encoder for lengths below 256 and leaves
the following bytes untouched. -/
theorem v2FieldSize_varint (n : Nat) (hn : n < 256) (rest : Bytes) :
    v2FieldSizeAux 0 0 (varint_size n ++ rest) = .ok (n, rest) := by
  by_cases h1 : n < 128
  · rw [varint_lo n h1]
    simp only [List.cons_append, List.nil_append]
    unfold v2FieldSizeAux
    rw [if_pos (by decide), if_neg (by simp [(varintDecLo n h1).1]), (varintDecLo n h1).2]
  · obtain ⟨a, ha, rfl⟩ : ∃ a, a < 128 ∧ n = a + 128 := ⟨n - 128, by omega, by omega⟩
    rw [varint_hi (a + 128) (by omega) (by omega)]
    simp only [List.cons_append, List.nil_append]
    have hmod : (a + 128) % 128 = a := by omega
    have hdiv : (a + 128) / 128 = 1 := by omega
    rw [hmod, hdiv]
    unfold v2FieldSizeAux
    rw [if_pos (by decide), if_pos (varintDecHi a ha).1]
    unfold v2FieldSizeAux
    rw [if_pos (by decide), if_neg (by decide), (varintDecHi a ha).2]

/-- Reading a length-prefixed field recovers the field bytes and the
tail. -/
theorem v2GetField_rt (val rest : Bytes) (h : val.length < 256) :
    v2GetField (varint_size val.length ++ (val ++ rest)) = .ok (val, rest) := by
  unfold v2GetField v2GetFieldSize
  rw [v2FieldSize_varint val.length h (val ++ rest)]
  simp only [RustRes.bind]
  rw [if_neg (by simp)]
  rw [List.take_left, List.drop_left]

/-- The caveat loop of `deserialize_v2` inverts the caveat section of
`serialize_v2` for first-party-only caveats with short ids. -/
theorem v2ParseCaveats_rt :
    ∀ (cavs : List Caveat) (fuel : Nat) (acc : List Caveat) (tail : Bytes),
      cavs.length < fuel →
      (∀ c ∈ cavs, c.verifier_id = none ∧ c.location = none ∧ ValidStr c.id ∧
        (utf8Encode c.id).length < 256) →
      (v2GetByte ((cavs.map v2CaveatBytes).flatten ++ 0 :: tail)).bind
        (fun tr => v2ParseCaveats fuel tr.1 tr.2 acc) = .ok (acc ++ cavs, tail) := by
  intro cavs
  induction cavs with
  | nil =>
    intro fuel acc tail hfuel _
    simp only [List.map_nil, List.flatten_nil, List.nil_append]
    cases fuel with
    | zero => omega
    | succ f =>
      simp only [v2GetByte, RustRes.bind]
      unfold v2ParseCaveats
      rw [if_pos rfl]
      simp
  | cons c cs ih =>
    intro fuel acc tail hfuel hconds
    obtain ⟨hvid, hloc, hvalid, hshort⟩ := hconds c (by simp)
    cases fuel with
    | zero => omega
    | succ f =>
      have hblock : v2CaveatBytes c =
          2 :: (varint_size (utf8Encode c.id).length ++ (utf8Encode c.id ++ [0])) := by
        unfold v2CaveatBytes serialize_field_v2
        rw [hvid, hloc]
        simp
      rw [List.map_cons, List.flatten_cons, hblock]
      simp only [List.cons_append, List.append_assoc, v2GetByte, RustRes.bind]
      unfold v2ParseCaveats
      rw [if_neg (by decide), if_neg (by decide), if_pos rfl]
      rw [v2GetField_rt _ _ hshort]
      simp only [RustRes.bind]
      rw [utf8Decode_utf8Encode _ hvalid]
      simp only [RustRes.bind, v2GetByte, List.nil_append,
        show ((0 : Nat) = 4) = False from by simp, show ((0 : Nat) = 0) = True from by simp,
        if_false, if_true]
      have hc : (⟨c.id, none, none⟩ : Caveat) = c := by
        cases c
        simp only [] at hvid hloc
        rw [hvid, hloc]
      rw [hc]
      have hih := ih f (acc ++ [c]) tail (by simp at hfuel; omega)
        (fun q hq => hconds q (by simp [hq]))
      simp only [v2GetByte, RustRes.bind] at hih
      simpa using hih

theorem v2CaveatBytes_len_ge : ∀ (cavs : List Caveat),
    cavs.length ≤ ((cavs.map v2CaveatBytes).flatten).length := by
  intro cavs
  induction cavs with
  | nil => simp
  | cons c cs ih =>
    simp only [List.map_cons, List.flatten_cons, List.length_append, List.length_cons]
    have hblock : 1 ≤ (v2CaveatBytes c).length := by
      unfold v2CaveatBytes serialize_field_v2
      cases c.location <;> cases c.verifier_id <;> simp <;> omega
    omega

theorem deserialize_v2_rt (m : Macaroon) (loc : RStr)
    (hloc : m.location = some loc) (hlv : ValidStr loc)
    (hls : (utf8Encode loc).length < 256)
    (hiv : ValidStr m.identifier) (his : (utf8Encode m.identifier).length < 256)
    (hss : m.signature.length < 256)
    (hcavs : ∀ c ∈ m.caveats, c.verifier_id = none ∧ c.location = none ∧ ValidStr c.id ∧
      (utf8Encode c.id).length < 256) :
    (serialize_v2 m).bind deserialize_v2 = .ok m := by
  unfold serialize_v2
  rw [hloc]
  simp only [RustRes.bind]
  unfold deserialize_v2
  simp only [serialize_field_v2, List.append_assoc, List.cons_append, List.nil_append,
    List.singleton_append]
  simp only [v2GetByte, RustRes.bind]
  rw [if_neg (by decide), if_pos trivial]
  rw [v2GetField_rt _ _ hls]
  simp only []
  rw [utf8Decode_utf8Encode loc hlv]
  simp only []
  rw [if_pos trivial]
  rw [v2GetField_rt _ _ his]
  simp only []
  rw [utf8Decode_utf8Encode _ hiv]
  simp only [v2GetEos, v2GetByte, RustRes.bind]
  rw [if_pos trivial]
  simp only []
  obtain ⟨h0, t0, hstream⟩ :
      ∃ h t, (List.map v2CaveatBytes m.caveats).flatten ++
        0 :: 6 :: (varint_size (List.length m.signature) ++ m.signature) = h :: t := by
    cases hfl : (List.map v2CaveatBytes m.caveats).flatten with
    | nil => exact ⟨0, _, rfl⟩
    | cons x xs => exact ⟨x, _, rfl⟩
  have hbound : m.caveats.length < t0.length + 1 := by
    have hlen := congrArg List.length hstream
    simp only [List.length_append, List.length_cons] at hlen
    have hge := v2CaveatBytes_len_ge m.caveats
    omega
  have hloop := v2ParseCaveats_rt m.caveats (t0.length + 1) []
    (6 :: (varint_size (List.length m.signature) ++ m.signature)) hbound hcavs
  rw [hstream] at hloop ⊢
  simp only [v2GetByte, RustRes.bind] at hloop
  simp only []
  rw [hloop]
  simp only [List.nil_append]
  rw [if_pos trivial]
  rw [show varint_size (List.length m.signature) ++ m.signature =
    varint_size (List.length m.signature) ++ (m.signature ++ []) from by simp]
  rw [v2GetField_rt _ _ hss]
  simp only []
  rw [← hloc]


theorem full_v2_rt (jprint : V2JSerialization -> Bytes)
    (jparse : Bytes -> RustRes V2JSerialization) (m : Macaroon) (loc : RStr)
    (hloc : m.location = some loc) (hlv : ValidStr loc)
    (hls : (utf8Encode loc).length < 256)
    (hiv : ValidStr m.identifier) (his : (utf8Encode m.identifier).length < 256)
    (hident : m.identifier ≠ [])
    (hss : m.signature.length < 256) (hsig : m.signature ≠ [])
    (hcavs : ∀ c ∈ m.caveats, c.verifier_id = none ∧ c.location = none ∧ ValidStr c.id ∧
      (utf8Encode c.id).length < 256) :
    (Macaroon.serialize jprint m .V2).bind (Macaroon.deserialize jparse) = .ok m := by
  have h2 := deserialize_v2_rt m loc hloc hlv hls hiv his hss hcavs
  simp only [serialize_v2, RustRes.bind] at h2
  unfold Macaroon.serialize serialize_v2
  simp only [RustRes.bind]
  unfold Macaroon.deserialize
  simp only [List.cons_append, List.singleton_append, List.nil_append, List.append_assoc]
  rw [if_neg (by decide), if_pos trivial]
  simp only [List.cons_append, List.singleton_append, List.nil_append, List.append_assoc] at h2
  rw [h2]
  simp only [RustRes.bind]
  unfold Macaroon.validate
  rw [if_neg (by simpa using hident), if_neg (by simpa using hsig)]

theorem b64EncodeChar_lt (v : Nat) : b64EncodeChar v < 128 := by
  unfold b64EncodeChar
  split_ifs <;> omega

theorem base64Encode_lt_128 (bs : Bytes) : ∀ x ∈ base64Encode bs, x < 128 := by
  intro x hx
  rcases base64Encode_mem bs x hx with h | ⟨v, h⟩
  · omega
  · rw [h]; exact b64EncodeChar_lt v

theorem v2jCaveatsOf_rt (cavs : List Caveat)
    (hcavs : ∀ c ∈ cavs, c.verifier_id = none ∧ c.location = none) :
    v2jCaveatsOf (cavs.map fun cav =>
      (⟨some cav.id, none, cav.location, none, cav.verifier_id, none⟩ : CaveatV2J)) =
      .ok cavs := by
  induction cavs with
  | nil => rfl
  | cons c cs ih =>
    obtain ⟨hv, hl⟩ := hcavs c (by simp)
    rw [List.map_cons]
    unfold v2jCaveatsOf v2jCaveatOf
    simp only [hv, hl, RustRes.bind]
    rw [ih (fun q hq => hcavs q (by simp [hq]))]
    simp only [RustRes.map]
    have hc : (⟨c.id, none, none⟩ : Caveat) = c := by
      cases c
      simp only [] at hv hl
      rw [hv, hl]
    rw [hc]

theorem macaroonOfV2J_rt (m : Macaroon)
    (hsig : ∀ b ∈ m.signature, b < 256)
    (hcavs : ∀ c ∈ m.caveats, c.verifier_id = none ∧ c.location = none) :
    macaroonOfV2J (v2jOfMacaroon m) = .ok m := by
  unfold macaroonOfV2J v2jOfMacaroon
  simp only [Option.isSome_none, Option.isSome_some]
  rw [if_neg (by simp), if_neg (by simp), if_neg (by simp)]
  simp only [RustRes.bind]
  rw [utf8Encode_ascii _ (base64Encode_lt_128 m.signature),
    base64Decode_base64Encode m.signature hsig]
  simp only [RustRes.bind]
  rw [v2jCaveatsOf_rt m.caveats hcavs]
  simp only [RustRes.bind]
  cases hL : m.location with
  | none => simp only []; rw [← hL]
  | some loc => simp only []; rw [← hL]

theorem full_v2j_rt (jprint : V2JSerialization → Bytes)
    (jparse : Bytes → RustRes V2JSerialization)
    (m : Macaroon)
    (hjp : jparse (jprint (v2jOfMacaroon m)) = .ok (v2jOfMacaroon m))
    (hhead : ∃ t, jprint (v2jOfMacaroon m) = 123 :: t)
    (hsig : ∀ b ∈ m.signature, b < 256)
    (hident : m.identifier ≠ []) (hsigne : m.signature ≠ [])
    (hcavs : ∀ c ∈ m.caveats, c.verifier_id = none ∧ c.location = none) :
    (Macaroon.serialize jprint m .V2J).bind (Macaroon.deserialize jparse) = .ok m := by
  unfold Macaroon.serialize
  simp only [RustRes.bind]
  obtain ⟨t, ht⟩ := hhead
  unfold Macaroon.deserialize
  rw [ht]
  simp only []
  rw [if_pos trivial, ← ht, hjp]
  simp only [RustRes.bind]
  rw [macaroonOfV2J_rt m hsig hcavs]
  simp only [RustRes.bind]
  unfold Macaroon.validate
  rw [if_neg (by simpa using hident), if_neg (by simpa using hsigne)]

theorem to_hex_char_lt (v : Nat) (h : v < 16) : to_hex_char v < 128 := by
  unfold to_hex_char
  split_ifs <;> omega

theorem hexDigitVal_to_hex_char : ∀ k : Nat, k < 16 → hexDigitVal (to_hex_char k) = some k := by
  decide

theorem packet_header_lt (size : Nat) : ∀ x ∈ packet_header size, x < 128 := by
  intro x hx
  unfold packet_header at hx
  simp only [List.mem_cons, List.not_mem_nil, or_false] at hx
  rcases hx with h | h | h | h <;> rw [h] <;> exact to_hex_char_lt _ (by omega)

theorem hexParseStr_header (size : Nat) (h : size < 65536) :
    hexParseStr (packet_header size) = some size := by
  unfold hexParseStr packet_header
  rw [if_neg (by simp)]
  simp only [List.foldl_cons, List.foldl_nil, Option.some_bind]
  rw [hexDigitVal_to_hex_char _ (by omega)]
  simp only [Option.map_some', Option.some_bind]
  rw [hexDigitVal_to_hex_char _ (by omega)]
  simp only [Option.map_some', Option.some_bind]
  rw [hexDigitVal_to_hex_char _ (by omega)]
  simp only [Option.map_some', Option.some_bind]
  rw [hexDigitVal_to_hex_char _ (by omega)]
  simp only [Option.map_some']
  congr 1
  omega

theorem findIdx_first_aux (p : Nat → Bool) :
    ∀ (A : Bytes) (i b : Nat) (rest : Bytes), (∀ x ∈ A, p x = false) → p b = true →
      List.findIdx? p (A ++ b :: rest) i = some (i + A.length) := by
  intro A
  induction A with
  | nil =>
    intro i b rest _ hb
    rw [List.nil_append, List.findIdx?_cons, if_pos hb]
    simp
  | cons a t ih =>
    intro i b rest hA hb
    have ha : p a = false := hA a (by simp)
    rw [List.cons_append, List.findIdx?_cons, if_neg (by simp [ha])]
    rw [ih (i + 1) b rest (fun x hx => hA x (by simp [hx])) hb]
    simp only [List.length_cons]
    congr 1
    omega

theorem findIdx_first (p : Nat → Bool) (A : Bytes) (b : Nat) (rest : Bytes)
    (hA : ∀ x ∈ A, p x = false) (hb : p b = true) :
    (A ++ b :: rest).findIdx? p = some A.length := by
  have := findIdx_first_aux p A 0 b rest hA hb
  simpa using this

theorem serialize_as_packet_assoc (tag : RStr) (value rest : Bytes) :
    serialize_as_packet tag value ++ rest =
      packet_header (4 + 2 + (utf8Encode tag).length + value.length) ++
        (utf8Encode tag ++ (32 :: (value ++ (10 :: rest)))) := by
  unfold serialize_as_packet
  simp

theorem packet_header_length (size : Nat) : (packet_header size).length = 4 := rfl

theorem deserialize_as_packets_step (fuel : Nat) (tag : RStr) (value rest : Bytes)
    (acc : List PacketV1) (hvalid : ValidStr tag)
    (htl : ∀ x ∈ utf8Encode tag, x ≠ 32)
    (hsize : 4 + 2 + (utf8Encode tag).length + value.length < 65536) :
    deserialize_as_packets (fuel + 1) (serialize_as_packet tag value ++ rest) acc =
      deserialize_as_packets fuel rest (acc ++ [⟨tag, value ++ [10]⟩]) := by
  rw [serialize_as_packet_assoc]
  unfold deserialize_as_packets
  have hlen : (packet_header (4 + 2 + (utf8Encode tag).length + value.length) ++
      (utf8Encode tag ++ 32 :: (value ++ 10 :: rest))).length =
      4 + 2 + (utf8Encode tag).length + value.length + rest.length := by
    simp only [List.length_append, List.length_cons, packet_header_length]
    omega
  rw [hlen, if_neg (by omega), if_neg (by omega)]
  rw [List.take_left' (packet_header_length _)]
  rw [utf8Decode_ascii _ (packet_header_lt _)]
  simp only []
  rw [hexParseStr_header _ (by omega)]
  simp only []
  rw [if_neg (by omega)]
  rw [List.drop_left' (packet_header_length _)]
  have hre : utf8Encode tag ++ 32 :: (value ++ 10 :: rest) =
      (utf8Encode tag ++ 32 :: (value ++ [10])) ++ rest := by simp
  rw [hre]
  have hplen : (utf8Encode tag ++ 32 :: (value ++ [10])).length =
      4 + 2 + (utf8Encode tag).length + value.length - 4 := by
    simp only [List.length_append, List.length_cons, List.length_nil]
    omega
  rw [List.take_left' hplen]
  rw [findIdx_first _ _ _ _ (fun x hx => by simpa using htl x hx) rfl]
  simp only []
  rw [List.take_left, utf8Decode_utf8Encode tag hvalid]
  simp only []
  rw [List.drop_left]
  simp only [List.drop_succ_cons, List.drop_zero]
  have hre2 : packet_header (4 + 2 + (utf8Encode tag).length + value.length) ++
      (utf8Encode tag ++ 32 :: (value ++ [10]) ++ rest) =
      (packet_header (4 + 2 + (utf8Encode tag).length + value.length) ++
        (utf8Encode tag ++ 32 :: (value ++ [10]))) ++ rest := by simp
  rw [hre2, List.drop_left' (by
    simp only [List.length_append, List.length_cons, List.length_nil, packet_header_length]
    omega)]
  cases fuel <;> rfl


theorem deserialize_as_packets_rt (ps : List (RStr × Bytes)) :
    ∀ (fuel : Nat) (acc : List PacketV1),
      ps.length < fuel →
      (∀ p ∈ ps, ValidStr p.1 ∧ (∀ x ∈ utf8Encode p.1, x ≠ 32) ∧
        4 + 2 + (utf8Encode p.1).length + p.2.length < 65536) →
      deserialize_as_packets fuel
          ((ps.map fun p => serialize_as_packet p.1 p.2).flatten) acc =
        .ok (acc ++ ps.map fun p => ⟨p.1, p.2 ++ [10]⟩) := by
  induction ps with
  | nil =>
    intro fuel acc hfuel _
    cases fuel with
    | zero => omega
    | succ f =>
      unfold deserialize_as_packets
      simp
  | cons p ps ih =>
    intro fuel acc hfuel hconds
    cases fuel with
    | zero => omega
    | succ f =>
      obtain ⟨hv, ht, hs⟩ := hconds p (by simp)
      rw [List.map_cons, List.flatten_cons]
      rw [deserialize_as_packets_step f p.1 p.2 _ acc hv ht hs]
      rw [ih f _ (by simp at hfuel; omega) (fun q hq => hconds q (by simp [hq]))]
      simp

theorem serialize_as_packet_len_ge (ps : List (RStr × Bytes)) :
    ps.length ≤ ((ps.map fun p => serialize_as_packet p.1 p.2).flatten).length := by
  induction ps with
  | nil => simp
  | cons p t ih =>
    simp only [List.map_cons, List.flatten_cons, List.length_append, List.length_cons]
    have h1 : 1 ≤ (serialize_as_packet p.1 p.2).length := by
      unfold serialize_as_packet packet_header
      simp
    omega

def v1Pairs (m : Macaroon) (loc : RStr) : List (RStr × Bytes) :=
  (rstr "location", utf8Encode loc) :: (rstr "identifier", utf8Encode m.identifier) ::
    ((m.caveats.map fun c => (rstr "cid", utf8Encode c.id)) ++
      [(rstr "signature", m.signature)])

theorem v1Packets_eq_flatten (m : Macaroon) (loc : RStr) (hloc : m.location = some loc)
    (hcavs : ∀ c ∈ m.caveats, c.verifier_id = none ∧ c.location = none) :
    v1Packets m = ((v1Pairs m loc).map fun p => serialize_as_packet p.1 p.2).flatten := by
  unfold v1Packets v1Pairs
  rw [hloc]
  simp only [List.map_cons, List.map_append, List.map_map, List.flatten_cons,
    List.flatten_append, List.flatten_cons, List.flatten_nil, List.append_nil,
    List.append_assoc]
  simp only [List.map_nil, List.flatten_nil, List.append_nil]
  have hmap : List.map v1CaveatPackets m.caveats =
      List.map ((fun p : RStr × Bytes => serialize_as_packet p.1 p.2) ∘
        fun c => (rstr "cid", utf8Encode c.id)) m.caveats := by
    apply List.map_congr_left
    intro c hc
    obtain ⟨hv, hl⟩ := hcavs c hc
    simp only [Function.comp]
    unfold v1CaveatPackets
    rw [hv, hl]
    simp
  rw [hmap]

theorem utf8Decode_append_newline (s : RStr) (h : ValidStr s) :
    utf8Decode (utf8Encode s ++ [10]) = some (s ++ [10]) := by
  rw [utf8Decode_encode_append s h [10]]
  rfl

theorem v1ProcessPackets_eval0 (loc ident : RStr) (sig : Bytes)
    (hlt : TrimStable loc) (hit : TrimStable ident)
    (hlv : ValidStr loc) (hiv : ValidStr ident) (hsl : sig.length = 32) :
    v1ProcessPackets [⟨rstr "location", utf8Encode loc ++ [10]⟩,
      ⟨rstr "identifier", utf8Encode ident ++ [10]⟩,
      ⟨rstr "signature", sig ++ [10]⟩] Macaroon.default Caveat.default =
      .ok ⟨some loc, ident, sig, []⟩ := by
  unfold v1ProcessPackets
  rw [if_pos rfl, utf8Decode_append_newline loc hlv]
  simp only []
  rw [rustTrim_append_newline loc hlt]
  unfold v1ProcessPackets
  simp only []
  rw [if_neg (by decide), if_pos trivial, utf8Decode_append_newline ident hiv]
  simp only []
  rw [rustTrim_append_newline ident hit]
  unfold v1ProcessPackets
  simp only []
  rw [if_neg (by decide), if_neg (by decide), if_pos trivial]
  rw [if_neg (by simp only [List.length_append, List.length_nil, List.length_cons]; omega)]
  rw [List.take_left' hsl]
  unfold v1ProcessPackets
  rfl

theorem v1ProcessPackets_eval1 (loc ident cid : RStr) (sig : Bytes)
    (hlt : TrimStable loc) (hit : TrimStable ident) (hct : TrimStable cid)
    (hlv : ValidStr loc) (hiv : ValidStr ident) (hcv : ValidStr cid)
    (hcne : cid ≠ []) (hsl : sig.length = 32) :
    v1ProcessPackets [⟨rstr "location", utf8Encode loc ++ [10]⟩,
      ⟨rstr "identifier", utf8Encode ident ++ [10]⟩,
      ⟨rstr "cid", utf8Encode cid ++ [10]⟩,
      ⟨rstr "signature", sig ++ [10]⟩] Macaroon.default Caveat.default =
      .ok ⟨some loc, ident, sig, [⟨cid, none, none⟩]⟩ := by
  unfold v1ProcessPackets
  rw [if_pos rfl, utf8Decode_append_newline loc hlv]
  simp only []
  rw [rustTrim_append_newline loc hlt]
  unfold v1ProcessPackets
  simp only []
  rw [if_neg (by decide), if_pos trivial, utf8Decode_append_newline ident hiv]
  simp only []
  rw [rustTrim_append_newline ident hit]
  unfold v1ProcessPackets
  simp only []
  rw [if_neg (by decide), if_neg (by decide), if_neg (by decide), if_pos trivial]
  rw [if_pos (by decide), utf8Decode_append_newline cid hcv]
  simp only []
  rw [rustTrim_append_newline cid hct]
  unfold v1ProcessPackets
  simp only []
  rw [if_neg (by decide), if_neg (by decide), if_pos trivial]
  rw [show (List.isEmpty cid) = false from by
    cases cid with
    | nil => exact absurd rfl hcne
    | cons a t => rfl]
  simp only [Bool.false_eq_true, if_false]
  rw [if_neg (by simp only [List.length_append, List.length_nil, List.length_cons]; omega)]
  rw [List.take_left' hsl]
  unfold v1ProcessPackets
  rfl

theorem utf8EncodeChar_lt_256 (c : Nat) (h : ValidScalar c) :
    ∀ x ∈ utf8EncodeChar c, x < 256 := by
  obtain ⟨h1, _⟩ := h
  intro x hx
  unfold utf8EncodeChar at hx
  split_ifs at hx with c1 c2 c3 <;>
    simp only [List.mem_cons, List.not_mem_nil, or_false] at hx <;>
    rcases hx with h | h | h | h <;> omega

theorem utf8Encode_lt_256 (s : RStr) (h : ValidStr s) :
    ∀ x ∈ utf8Encode s, x < 256 := by
  intro x hx
  unfold utf8Encode at hx
  rw [List.mem_flatten] at hx
  obtain ⟨l, hl, hxl⟩ := hx
  rw [List.mem_map] at hl
  obtain ⟨c, hc, hcl⟩ := hl
  exact utf8EncodeChar_lt_256 c (h c hc) x (hcl ▸ hxl)

theorem serialize_as_packet_lt_256 (tag : RStr) (value : Bytes)
    (htag : ValidStr tag) (hval : ∀ x ∈ value, x < 256) :
    ∀ x ∈ serialize_as_packet tag value, x < 256 := by
  intro x hx
  unfold serialize_as_packet at hx
  simp only [List.mem_append, List.mem_cons, List.not_mem_nil, or_false] at hx
  rcases hx with ((((h | h) | h) | h) | h)
  · have := packet_header_lt _ x h; omega
  · exact utf8Encode_lt_256 tag htag x h
  · omega
  · exact hval x h
  · omega

theorem v1Pairs_bytes_lt (m : Macaroon) (loc : RStr) (hlv : ValidStr loc)
    (hiv : ValidStr m.identifier) (hs : ∀ b ∈ m.signature, b < 256)
    (hcavs : ∀ c ∈ m.caveats, ValidStr c.id) :
    ∀ x ∈ ((v1Pairs m loc).map fun p => serialize_as_packet p.1 p.2).flatten, x < 256 := by
  intro x hx
  rw [List.mem_flatten] at hx
  obtain ⟨l, hl, hxl⟩ := hx
  rw [List.mem_map] at hl
  obtain ⟨p, hp, rfl⟩ := hl
  unfold v1Pairs at hp
  simp only [List.mem_cons, List.mem_append, List.mem_map, List.not_mem_nil, or_false] at hp
  rcases hp with rfl | rfl | ⟨c, hc, rfl⟩ | rfl
  · exact serialize_as_packet_lt_256 _ _
      (show ValidStr (rstr "location") from by unfold ValidStr; decide) (utf8Encode_lt_256 loc hlv) x hxl
  · exact serialize_as_packet_lt_256 _ _
      (show ValidStr (rstr "identifier") from by unfold ValidStr; decide)
      (utf8Encode_lt_256 m.identifier hiv) x hxl
  · exact serialize_as_packet_lt_256 _ _
      (show ValidStr (rstr "cid") from by unfold ValidStr; decide)
      (utf8Encode_lt_256 c.id (hcavs c hc)) x hxl
  · exact serialize_as_packet_lt_256 _ _
      (show ValidStr (rstr "signature") from by unfold ValidStr; decide) hs x hxl

theorem tag_location_valid : ValidStr (rstr "location") := by unfold ValidStr; decide
theorem tag_identifier_valid : ValidStr (rstr "identifier") := by unfold ValidStr; decide
theorem tag_cid_valid : ValidStr (rstr "cid") := by unfold ValidStr; decide
theorem tag_signature_valid : ValidStr (rstr "signature") := by unfold ValidStr; decide
theorem tag_location_nospace : ∀ x ∈ utf8Encode (rstr "location"), x ≠ 32 := by decide
theorem tag_identifier_nospace : ∀ x ∈ utf8Encode (rstr "identifier"), x ≠ 32 := by decide
theorem tag_cid_nospace : ∀ x ∈ utf8Encode (rstr "cid"), x ≠ 32 := by decide
theorem tag_signature_nospace : ∀ x ∈ utf8Encode (rstr "signature"), x ≠ 32 := by decide

theorem deserialize_v1_rt (m : Macaroon) (loc : RStr)
    (hloc : m.location = some loc) (hlv : ValidStr loc) (hlt : TrimStable loc)
    (hls : (utf8Encode loc).length < 65000)
    (hiv : ValidStr m.identifier) (hit : TrimStable m.identifier)
    (his : (utf8Encode m.identifier).length < 65000)
    (hsl : m.signature.length = 32) (hs256 : ∀ b ∈ m.signature, b < 256)
    (hcavs : ∀ c ∈ m.caveats, c.verifier_id = none ∧ c.location = none ∧
      ValidStr c.id ∧ TrimStable c.id ∧ c.id ≠ [] ∧ (utf8Encode c.id).length < 65000)
    (hclen : m.caveats.length ≤ 1) :
    (serialize_v1 m).bind deserialize_v1 = .ok m := by
  unfold serialize_v1
  simp only [RustRes.bind]
  unfold deserialize_v1
  have hfp : ∀ c ∈ m.caveats, c.verifier_id = none ∧ c.location = none :=
    fun c hc => ⟨(hcavs c hc).1, (hcavs c hc).2.1⟩
  have hstream256 : ∀ x ∈ v1Packets m, x < 256 := by
    rw [v1Packets_eq_flatten m loc hloc hfp]
    exact v1Pairs_bytes_lt m loc hlv hiv hs256 (fun c hc => (hcavs c hc).2.2.1)
  rw [utf8Decode_ascii _ (base64Encode_lt_128 _)]
  simp only []
  rw [utf8Encode_ascii _ (base64Encode_lt_128 _)]
  rw [base64Decode_base64Encode _ hstream256]
  simp only [RustRes.bind]
  rw [v1Packets_eq_flatten m loc hloc hfp]
  rw [deserialize_as_packets_rt (v1Pairs m loc) _ []
    (by
      have := serialize_as_packet_len_ge (v1Pairs m loc)
      omega)
    (by
      intro p hp
      unfold v1Pairs at hp
      simp only [List.mem_cons, List.mem_append, List.mem_map, List.not_mem_nil,
        or_false] at hp
      rcases hp with rfl | rfl | ⟨c, hc, rfl⟩ | rfl
      · exact ⟨tag_location_valid, tag_location_nospace,
          by show 4 + 2 + (utf8Encode (rstr "location")).length +
               (utf8Encode loc).length < 65536
             rw [show (utf8Encode (rstr "location")).length = 8 from rfl]; omega⟩
      · exact ⟨tag_identifier_valid, tag_identifier_nospace,
          by show 4 + 2 + (utf8Encode (rstr "identifier")).length +
               (utf8Encode m.identifier).length < 65536
             rw [show (utf8Encode (rstr "identifier")).length = 10 from rfl]; omega⟩
      · exact ⟨tag_cid_valid, tag_cid_nospace,
          by show 4 + 2 + (utf8Encode (rstr "cid")).length +
               (utf8Encode c.id).length < 65536
             rw [show (utf8Encode (rstr "cid")).length = 3 from rfl]
             have := (hcavs c hc).2.2.2.2.2
             omega⟩
      · exact ⟨tag_signature_valid, tag_signature_nospace,
          by show 4 + 2 + (utf8Encode (rstr "signature")).length +
               m.signature.length < 65536
             rw [show (utf8Encode (rstr "signature")).length = 9 from rfl]; omega⟩)]
  simp only [RustRes.bind, List.nil_append]
  rcases hmc : m.caveats with _ | ⟨c, cs⟩
  · unfold v1Pairs
    rw [hmc]
    simp only [List.map_nil, List.nil_append, List.map_cons, List.cons_append]
    rw [v1ProcessPackets_eval0 loc m.identifier m.signature hlt hit hlv hiv hsl]
    rw [← hloc, ← hmc]
  · cases cs with
    | cons d ds =>
      rw [hmc] at hclen
      simp at hclen
    | nil =>
      obtain ⟨hv, hl, hcv, hct, hcne, _⟩ := hcavs c (by rw [hmc]; simp)
      unfold v1Pairs
      rw [hmc]
      simp only [List.map_cons, List.map_nil, List.cons_append, List.nil_append]
      rw [v1ProcessPackets_eval1 loc m.identifier c.id m.signature hlt hit hct hlv hiv
        hcv hcne hsl]
      have hcr : (⟨c.id, none, none⟩ : Caveat) = c := by
        cases c
        simp only [] at hv hl
        rw [hv, hl]
      rw [hcr, ← hloc, ← hmc]

theorem base64Encode_head : ∀ (bs : Bytes), bs ≠ [] →
    ∃ v t, base64Encode bs = b64EncodeChar v :: t
  | [], h => absurd rfl h
  | [a], _ => ⟨a / 4, _, rfl⟩
  | [a, b], _ => ⟨a / 4, _, rfl⟩
  | a :: b :: c :: rest, _ => ⟨a / 4, _, rfl⟩

theorem b64EncodeChar_dispatch (v : Nat) :
    b64EncodeChar v ≠ 123 ∧ b64EncodeChar v ≠ 2 ∧
      ((97 ≤ b64EncodeChar v ∧ b64EncodeChar v ≤ 122) ∨
        (65 ≤ b64EncodeChar v ∧ b64EncodeChar v ≤ 90) ∨
        (48 ≤ b64EncodeChar v ∧ b64EncodeChar v ≤ 57) ∨
        b64EncodeChar v = 43 ∨ b64EncodeChar v = 45 ∨ b64EncodeChar v = 47 ∨
        b64EncodeChar v = 95) := by
  unfold b64EncodeChar
  split_ifs <;> omega

theorem v1Packets_ne_nil (m : Macaroon) (loc : RStr) (hloc : m.location = some loc)
    (hfp : ∀ c ∈ m.caveats, c.verifier_id = none ∧ c.location = none) :
    v1Packets m ≠ [] := by
  rw [v1Packets_eq_flatten m loc hloc hfp]
  unfold v1Pairs
  simp only [List.map_cons, List.flatten_cons]
  unfold serialize_as_packet packet_header
  simp

theorem full_v1_rt (jprint : V2JSerialization → Bytes)
    (jparse : Bytes → RustRes V2JSerialization)
    (m : Macaroon) (loc : RStr)
    (hloc : m.location = some loc) (hlv : ValidStr loc) (hlt : TrimStable loc)
    (hls : (utf8Encode loc).length < 65000)
    (hiv : ValidStr m.identifier) (hit : TrimStable m.identifier)
    (his : (utf8Encode m.identifier).length < 65000)
    (hident : m.identifier ≠ [])
    (hsl : m.signature.length = 32) (hs256 : ∀ b ∈ m.signature, b < 256)
    (hcavs : ∀ c ∈ m.caveats, c.verifier_id = none ∧ c.location = none ∧
      ValidStr c.id ∧ TrimStable c.id ∧ c.id ≠ [] ∧ (utf8Encode c.id).length < 65000)
    (hclen : m.caveats.length ≤ 1) :
    (Macaroon.serialize jprint m .V1).bind (Macaroon.deserialize jparse) = .ok m := by
  have h1 := deserialize_v1_rt m loc hloc hlv hlt hls hiv hit his hsl hs256 hcavs hclen
  simp only [serialize_v1, RustRes.bind] at h1
  unfold Macaroon.serialize serialize_v1
  simp only [RustRes.bind]
  obtain ⟨v, t, hbs⟩ := base64Encode_head (v1Packets m)
    (v1Packets_ne_nil m loc hloc (fun c hc => ⟨(hcavs c hc).1, (hcavs c hc).2.1⟩))
  unfold Macaroon.deserialize
  rw [hbs]
  simp only []
  rw [if_neg (by simpa using (b64EncodeChar_dispatch v).1),
    if_neg (by simpa using (b64EncodeChar_dispatch v).2.1),
    if_pos (b64EncodeChar_dispatch v).2.2]
  rw [← hbs, h1]
  simp only [RustRes.bind]
  unfold Macaroon.validate
  rw [if_neg (by simpa using hident), if_neg (by
    simp only [List.isEmpty_eq_true]
    intro he
    rw [he] at hsl
    simp at hsl)]

/-- A concrete one-caveat minted macaroon under the demo primitives. -/
def mDemo1 : Macaroon :=
  match mintFirstParty cpDemo (rstr "loc") (List.replicate 32 1) (rstr "keyid")
    [rstr "c1"] with
  | .ok m => m
  | _ => Macaroon.default

/-- A concrete two-caveat minted macaroon under the demo primitives. -/
def mDemo2 : Macaroon :=
  match mintFirstParty cpDemo (rstr "loc") (List.replicate 32 1) (rstr "keyid")
    [rstr "c1", rstr "c2"] with
  | .ok m => m
  | _ => Macaroon.default

/-- The demo HMAC returns 32 bytes below 256. -/
theorem demoHmac_spec : ∀ k t, (demoHmac k t).length = 32 ∧ ∀ b ∈ demoHmac k t, b < 256 := by
  intro k t
  constructor
  · simp [demoHmac]
  · intro b hb
    unfold demoHmac at hb
    simp only [List.mem_cons, List.mem_replicate] at hb
    rcases hb with h | ⟨_, h⟩
    · omega
    · omega

/-- C1: the round-trip law, amended. For a macaroon minted by `create` plus
any sequence of successful `add_first_party_caveat` calls, with trim-stable
valid-UTF-8 strings whose encodings stay below 256 bytes, serialization
followed by deserialization restores the macaroon in V2 always, in V2J
whenever the external JSON layer round-trips, and in V1 only when the
macaroon carries at most one caveat: `deserialize_v1` drops the value of
every `cid` packet that arrives while another caveat is pending, so the
two-caveat round-trip of the original claim fails (see the
counterexample), and the varint truncation of C7 bounds the V2 field
sizes. -/
theorem c1_roundtrip_amended (cp : CryptoPrim)
    (htag : ∀ k t, (cp.hmacFn k t).length = 32 ∧ ∀ b ∈ cp.hmacFn k t, b < 256)
    (jprint : V2JSerialization → Bytes) (jparse : Bytes → RustRes V2JSerialization)
    (location : RStr) (key : Bytes) (ident : RStr) (preds : List RStr) (m : Macaroon)
    (hjp : jparse (jprint (v2jOfMacaroon m)) = .ok (v2jOfMacaroon m))
    (hjhead : ∃ t, jprint (v2jOfMacaroon m) = 123 :: t)
    (hlv : ValidStr location) (hlt : TrimStable location)
    (hls : (utf8Encode location).length < 256)
    (hiv : ValidStr ident) (hit : TrimStable ident)
    (his : (utf8Encode ident).length < 256)
    (hident : ident ≠ [])
    (hpreds : ∀ p ∈ preds, p ≠ [] ∧ ValidStr p ∧ TrimStable p ∧ (utf8Encode p).length < 256)
    (hm : mintFirstParty cp location key ident preds = .ok m) :
    (Macaroon.serialize jprint m .V2).bind (Macaroon.deserialize jparse) = .ok m ∧
    (Macaroon.serialize jprint m .V2J).bind (Macaroon.deserialize jparse) = .ok m ∧
    (preds.length ≤ 1 →
      (Macaroon.serialize jprint m .V1).bind (Macaroon.deserialize jparse) = .ok m) := by
  obtain ⟨hml, hmi, hmc, hmsl, hms256⟩ :=
    mintFirstParty_ok cp htag location key ident preds m hident
      (fun p hp => (hpreds p hp).1) hm
  have hcavs4 : ∀ c ∈ m.caveats, c.verifier_id = none ∧ c.location = none ∧
      ValidStr c.id ∧ (utf8Encode c.id).length < 256 := by
    intro c hc
    rw [hmc, List.mem_map] at hc
    obtain ⟨p, hp, rfl⟩ := hc
    obtain ⟨_, hv, _, h2⟩ := hpreds p hp
    exact ⟨rfl, rfl, hv, h2⟩
  have hsne : m.signature ≠ [] := by
    intro he
    rw [he] at hmsl
    simp at hmsl
  refine ⟨?_, ?_, ?_⟩
  · exact full_v2_rt jprint jparse m location hml hlv hls
      (by rw [hmi]; exact hiv) (by rw [hmi]; exact his) (by rw [hmi]; exact hident)
      (by rw [hmsl]; omega) hsne hcavs4
  · exact full_v2j_rt jprint jparse m hjp hjhead hms256
      (by rw [hmi]; exact hident) hsne
      (fun c hc => ⟨(hcavs4 c hc).1, (hcavs4 c hc).2.1⟩)
  · intro hone
    refine full_v1_rt jprint jparse m location hml hlv hlt (by omega)
      (by rw [hmi]; exact hiv) (by rw [hmi]; exact hit) (by rw [hmi]; omega)
      (by rw [hmi]; exact hident) hmsl hms256 ?_ ?_
    · intro c hc
      rw [hmc, List.mem_map] at hc
      obtain ⟨p, hp, rfl⟩ := hc
      obtain ⟨hne, hv, ht, h2⟩ := hpreds p hp
      exact ⟨rfl, rfl, hv, ht, hne, by show (utf8Encode p).length < 65000; omega⟩
    · rw [hmc]
      simpa using hone

/-- C1 counterexample: the V1 round-trip of a two-caveat minted macaroon
returns a macaroon with only the first caveat, refuting the unconditional
round-trip claim. -/
theorem c1_roundtrip_counterexample :
    mintFirstParty cpDemo (rstr "loc") (List.replicate 32 1) (rstr "keyid")
        [rstr "c1", rstr "c2"] = .ok mDemo2 ∧
    mDemo2.caveats.length = 2 ∧
    (Macaroon.serialize (fun _ => [123]) mDemo2 .V1).bind (Macaroon.deserialize jsonStub) =
      .ok ⟨mDemo2.location, mDemo2.identifier, mDemo2.signature,
        [⟨rstr "c1", none, none⟩]⟩ ∧
    (Macaroon.serialize (fun _ => [123]) mDemo2 .V1).bind (Macaroon.deserialize jsonStub) ≠
      .ok mDemo2 := by
  refine ⟨rfl, rfl, ?_, ?_⟩
  · decide
  · decide

/-- C1 witness: the amended theorem applied to a concrete one-caveat mint
under the demo primitives and a stub JSON layer. -/
theorem c1_roundtrip_witness :
    mintFirstParty cpDemo (rstr "loc") (List.replicate 32 1) (rstr "keyid") [rstr "c1"] =
        .ok mDemo1 ∧
    ((Macaroon.serialize (fun _ => [123]) mDemo1 .V2).bind
        (Macaroon.deserialize (fun _ => .ok (v2jOfMacaroon mDemo1))) = .ok mDemo1 ∧
      (Macaroon.serialize (fun _ => [123]) mDemo1 .V2J).bind
        (Macaroon.deserialize (fun _ => .ok (v2jOfMacaroon mDemo1))) = .ok mDemo1 ∧
      ([rstr "c1"].length ≤ 1 →
        (Macaroon.serialize (fun _ => [123]) mDemo1 .V1).bind
          (Macaroon.deserialize (fun _ => .ok (v2jOfMacaroon mDemo1))) = .ok mDemo1)) :=
  ⟨rfl,
    c1_roundtrip_amended cpDemo demoHmac_spec (fun _ => [123])
      (fun _ => .ok (v2jOfMacaroon mDemo1)) (rstr "loc") (List.replicate 32 1)
      (rstr "keyid") [rstr "c1"] mDemo1 rfl ⟨[], rfl⟩
      (by unfold ValidStr; decide) (by decide) (by decide)
      (by unfold ValidStr; decide) (by decide) (by decide) (by decide)
      (fun p hp => by
        simp only [List.mem_singleton] at hp
        subst hp
        exact ⟨by decide, by unfold ValidStr; decide, by decide, by decide⟩)
      rfl⟩
